import Mathlib

/-!
# Verification of the `srs` flashcard core

Shallow embedding of the repository's core (package `core`: `card.go`,
`deck.go`, `scheduler.go`, plus the `rate_card` tool handler in
`mcp_simple.go`) and proofs about it.

Modelling conventions:
* Go strings are modelled as `List Char` (called `Str` below); file contents
  are modelled as the list of their newline-separated lines (`List Str`).
* Go `time.Time` values (from the external `time` package) are modelled as
  civil UTC fields to the nanosecond; `Format(time.RFC3339)` /
  `Parse(time.RFC3339)` are modelled to the second with a trailing `Z`.
* Go `float64` values are modelled as `ℚ`; `%.2f` formatting is modelled as
  rounding to two decimals followed by exact decimal printing.
* The external `go-fsrs` scheduling library is abstracted: its `Card` record
  is embedded (`FSRSCard`), and the scheduling function `Repeat` is a
  parameter of the session operations, per the spec's contract-only view.
* Go's in-place mutation through `*Card` pointers is modelled by functional
  update of the list entry at the rated index.
-/

/-- Go strings, modelled as their character lists. -/
abbrev Str := List Char

namespace Srs

/-! ## Character helpers -/

/-- The numeric value of a decimal digit character. -/
def charVal (c : Char) : Nat := c.toNat - 48

/-- The `\w` character class of Go's RE2 (`[0-9A-Za-z_]`). -/
def isWordChar (c : Char) : Bool := c.isAlphanum || c == '_'

/-- Whitespace as trimmed by `strings.TrimSpace` (ASCII fragment). -/
def isSpaceChar (c : Char) : Bool := c == ' ' || c == '\t' || c == '\n' || c == '\r'

/-- Model of `strings.HasPrefix`. -/
def hasPre : Str → Str → Bool
  | _, [] => true
  | [], _ :: _ => false
  | a :: s, b :: p => a == b && hasPre s p

/-- Model of `strings.HasSuffix`. -/
def hasSuf (s p : Str) : Bool := hasPre s.reverse p.reverse

/-- Model of `strings.TrimPrefix`: drop `p` from the front of `s` when present. -/
def dropPre (s p : Str) : Str := if hasPre s p then s.drop p.length else s

/-- Model of `strings.TrimSuffix`: drop `p` from the end of `s` when present. -/
def dropSuf (s p : Str) : Str := if hasSuf s p then s.take (s.length - p.length) else s

/-- Model of `strings.TrimSpace`. -/
def trimSp (s : Str) : Str :=
  ((s.dropWhile isSpaceChar).reverse.dropWhile isSpaceChar).reverse

/-! ## Decimal printing and parsing of naturals

Models `fmt.Sprintf("%d", n)` and the digit-reading part of `strconv.Atoi`
(both from Go's standard library, external to the repository). -/

/-- Little-endian decimal digits of `n`; `fuel`-structural so that it reduces. -/
def natDigitsRev : Nat → Nat → List Nat
  | 0, _ => []
  | fuel + 1, n => if n = 0 then [] else n % 10 :: natDigitsRev fuel (n / 10)

/-- Model of `fmt.Sprintf("%d", n)` for a natural number. -/
def natToStr (n : Nat) : Str :=
  if n = 0 then ['0'] else ((natDigitsRev (n + 1) n).map Nat.digitChar).reverse

/-- Horner-step accumulation of decimal digits, as a parser would. -/
def natVal (s : Str) : Nat := s.foldl (fun acc c => 10 * acc + charVal c) 0

/-! ## Integer parsing: `strconv.Atoi`

Modelled from Go's standard library (external): optional sign, decimal
digits, failure outside the 64-bit signed range. -/

/-- Decimal digit run to a natural number, or `none`. -/
def parseNatDigits (s : Str) : Option Nat :=
  if !s.isEmpty && s.all Char.isDigit then some (natVal s) else none

/-- Model of `strconv.Atoi` (external model). -/
def goAtoi (s : Str) : Option Int :=
  if hasPre s ['-'] then
    (parseNatDigits (s.drop 1)).bind fun n =>
      if n ≤ 2 ^ 63 then some (-(n : Int)) else none
  else if hasPre s ['+'] then
    (parseNatDigits (s.drop 1)).bind fun n =>
      if n ≤ 2 ^ 63 - 1 then some ((n : Int)) else none
  else
    (parseNatDigits s).bind fun n =>
      if n ≤ 2 ^ 63 - 1 then some ((n : Int)) else none

/-- Go's `uint64(i)` conversion of an `int`. -/
def intToUInt64 (i : Int) : Nat := (i % 2 ^ 64).toNat

/-! ## Time: Go's `time` package (external)

Modelled from Go's standard library: an instant as civil UTC fields.
`Format(time.RFC3339)` is modelled in its canonical `...Z` form, dropping
sub-second precision; `Parse(time.RFC3339)` is modelled on that canonical
form (field ranges checked, day-in-month simplified to `1..31`). -/

structure GoTime where
  year : Nat
  month : Nat
  day : Nat
  hour : Nat
  minute : Nat
  second : Nat
  nanosecond : Nat
  deriving DecidableEq, Repr

/-- Model of `time.Time.Before`: instant comparison, i.e. lexicographic on UTC fields. -/
def timeBefore (t u : GoTime) : Bool :=
  if t.year ≠ u.year then t.year < u.year
  else if t.month ≠ u.month then t.month < u.month
  else if t.day ≠ u.day then t.day < u.day
  else if t.hour ≠ u.hour then t.hour < u.hour
  else if t.minute ≠ u.minute then t.minute < u.minute
  else if t.second ≠ u.second then t.second < u.second
  else t.nanosecond < u.nanosecond

/-- The check `d.Before(now) || d.Equal(now)` used throughout the code. -/
def timeLeB (t u : GoTime) : Bool := timeBefore t u || t == u

/-- Two-digit zero-padded decimal, as `Format` produces for sub-fields. -/
def pad2 (n : Nat) : Str := [Nat.digitChar (n / 10 % 10), Nat.digitChar (n % 10)]

/-- Four-digit zero-padded decimal, as `Format` produces for the year. -/
def pad4 (n : Nat) : Str :=
  [Nat.digitChar (n / 1000 % 10), Nat.digitChar (n / 100 % 10),
   Nat.digitChar (n / 10 % 10), Nat.digitChar (n % 10)]

/-- Model of `t.Format(time.RFC3339)` (external model, canonical UTC form). -/
def fmtRFC3339 (t : GoTime) : Str :=
  pad4 t.year ++ '-' :: pad2 t.month ++ '-' :: pad2 t.day ++
  'T' :: pad2 t.hour ++ ':' :: pad2 t.minute ++ ':' :: pad2 t.second ++ ['Z']

/-- Read two decimal digit characters. -/
def read2 (a b : Char) : Option Nat :=
  if a.isDigit && b.isDigit then some (10 * charVal a + charVal b) else none

/-- Read four decimal digit characters. -/
def read4 (a b c d : Char) : Option Nat :=
  if a.isDigit && b.isDigit && c.isDigit && d.isDigit then
    some (1000 * charVal a + 100 * charVal b + 10 * charVal c + charVal d)
  else none

/-- Model of `time.Parse(time.RFC3339, s)` (external model, canonical UTC form). -/
def parseRFC3339 (s : Str) : Option GoTime :=
  match s with
  | [y1, y2, y3, y4, '-', m1, m2, '-', d1, d2, 'T',
     h1, h2, ':', i1, i2, ':', s1, s2, 'Z'] =>
    match read4 y1 y2 y3 y4, read2 m1 m2, read2 d1 d2,
          read2 h1 h2, read2 i1 i2, read2 s1 s2 with
    | some y, some mo, some d, some h, some mi, some sec =>
      if 1 ≤ mo ∧ mo ≤ 12 ∧ 1 ≤ d ∧ d ≤ 31 ∧ h ≤ 23 ∧ mi ≤ 59 ∧ sec ≤ 59 then
        some ⟨y, mo, d, h, mi, sec, 0⟩
      else none
    | _, _, _, _, _, _ => none
  | _ => none

/-- Civil field ranges under which formatting and reparsing are inverse. -/
def ValidTime (t : GoTime) : Prop :=
  t.year ≤ 9999 ∧ 1 ≤ t.month ∧ t.month ≤ 12 ∧ 1 ≤ t.day ∧ t.day ≤ 31 ∧
  t.hour ≤ 23 ∧ t.minute ≤ 59 ∧ t.second ≤ 59

/-- Truncation to whole seconds, as RFC3339 round-tripping produces. -/
def truncSec (t : GoTime) : GoTime := { t with nanosecond := 0 }

/-! ## Floating point: `fmt.Sprintf("%.2f")` and `strconv.ParseFloat`

Modelled from Go's standard library (external), with `float64` modelled as
`ℚ` and `%.2f` as rounding to two decimal places followed by exact decimal
printing. `ParseFloat` is modelled on plain decimal forms with a nonempty
integer part (the only forms the codec emits). -/

/-- Rounding to two decimal places. -/
def round2 (q : ℚ) : ℚ := (round (q * 100) : ℚ) / 100

/-- Model of `fmt.Sprintf("%.2f", q)` (external model). -/
def fmtF2 (q : ℚ) : Str :=
  let z : Int := round (q * 100)
  (if z < 0 then ['-'] else []) ++ natToStr (z.natAbs / 100) ++ '.' :: pad2 (z.natAbs % 100)

/-- Model of `strconv.ParseFloat(s, 64)` (external model). -/
def goParseFloat (s : Str) : Option ℚ :=
  let sign : ℚ := if hasPre s ['-'] then -1 else 1
  let rest := if hasPre s ['-'] || hasPre s ['+'] then s.drop 1 else s
  let ip := rest.takeWhile Char.isDigit
  let rest2 := rest.dropWhile Char.isDigit
  if ip.isEmpty then none
  else
    match rest2 with
    | [] => some (sign * (natVal ip : ℚ))
    | '.' :: frac =>
      if !frac.isEmpty && frac.all Char.isDigit then
        some (sign * ((natVal ip : ℚ) + (natVal frac : ℚ) / 10 ^ frac.length))
      else none
    | _ => none

/-! ## The FSRS data model

`fsrs.State`, `fsrs.Rating`, `fsrs.Card` and `fsrs.ReviewLog` from the
external `go-fsrs/v3` library, embedded as far as the core uses them. -/

/-- Model of `fsrs.State`. -/
inductive CState where
  | new
  | learning
  | review
  | relearning
  deriving DecidableEq, Repr

/-- Model of `fsrs.Rating`. -/
inductive Rating where
  | again
  | hard
  | good
  | easy
  deriving DecidableEq, Repr

/-- Model of `fsrs.Card`: the per-card scheduling state. -/
structure FSRSCard where
  due : GoTime
  stability : ℚ
  difficulty : ℚ
  elapsedDays : Nat
  scheduledDays : Nat
  reps : Nat
  lapses : Nat
  state : CState
  deriving DecidableEq, Repr

/-- Model of `fsrs.ReviewLog` (external; only its presence matters to the core). -/
structure ReviewLogEntry where
  rating : Rating
  review : GoTime
  deriving DecidableEq, Repr

/-- Model of `fsrs.NewCard()` (external model): the new-card default, immediately due. -/
def newCardDefault (now : GoTime) : FSRSCard :=
  { due := now
    stability := 0
    difficulty := 0
    elapsedDays := 0
    scheduledDays := 0
    reps := 0
    lapses := 0
    state := .new }

/-- Model of `StateToString` (`core/card.go`). -/
def stateToString (state : CState) : Str :=
  match state with
  | .new => "New".data
  | .learning => "Learning".data
  | .review => "Review".data
  | .relearning => "Relearning".data

/-- Model of `StringToState` (`core/card.go`): unrecognized values decode to `New`. -/
def stringToState (s : Str) : CState :=
  if s = "New".data then .new
  else if s = "Learning".data then .learning
  else if s = "Review".data then .review
  else if s = "Relearning".data then .relearning
  else .new

/-! ## The metadata tokenizer

`parseFSRSMetadata` extracts `key:value` pairs with the RE2 regex
`(\w+):([^,]+)` via `FindAllStringSubmatch`: scanning left to right, a match
is a maximal run of word characters, a colon, then a maximal nonempty run of
non-comma characters; scanning resumes after each match. Embedded as the
equivalent single-pass character scan below. -/

/-- Scanner state: outside a candidate match, inside a key run, or inside a
value run after the colon. -/
inductive ScanSt where
  | scan
  | key (k : Str)
  | val (k : Str) (v : Str)

/-- One character step of the `(\w+):([^,]+)` scan. -/
def scanStep : List (Str × Str) × ScanSt → Char → List (Str × Str) × ScanSt
  | (acc, .scan), c =>
    if isWordChar c then (acc, .key [c]) else (acc, .scan)
  | (acc, .key k), c =>
    if isWordChar c then (acc, .key (k ++ [c]))
    else if c = ':' then (acc, .val k [])
    else (acc, .scan)
  | (acc, .val k v), c =>
    if c = ',' then
      if v.isEmpty then (acc, .scan) else (acc ++ [(k, v)], .scan)
    else (acc, .val k (v ++ [c]))

/-- All matches of `(\w+):([^,]+)` in `s`, in order. -/
def findMatches (s : Str) : List (Str × Str) :=
  match s.foldl scanStep ([], .scan) with
  | (acc, .val k v) => if v.isEmpty then acc else acc ++ [(k, v)]
  | (acc, _) => acc

/-- One iteration of `parseFSRSMetadata`'s match loop: trim key and value,
then assign the recognized field if the value parses. -/
def applyMatch (card : FSRSCard) (m : Str × Str) : FSRSCard :=
  let key := trimSp m.1
  let value := trimSp m.2
  if key = "due".data then
    match parseRFC3339 value with
    | some t => { card with due := t }
    | none => card
  else if key = "stability".data then
    match goParseFloat value with
    | some f => { card with stability := f }
    | none => card
  else if key = "difficulty".data then
    match goParseFloat value with
    | some f => { card with difficulty := f }
    | none => card
  else if key = "elapsed_days".data then
    match goAtoi value with
    | some i => { card with elapsedDays := intToUInt64 i }
    | none => card
  else if key = "scheduled_days".data then
    match goAtoi value with
    | some i => { card with scheduledDays := intToUInt64 i }
    | none => card
  else if key = "reps".data then
    match goAtoi value with
    | some i => { card with reps := intToUInt64 i }
    | none => card
  else if key = "lapses".data then
    match goAtoi value with
    | some i => { card with lapses := intToUInt64 i }
    | none => card
  else if key = "state".data then
    { card with state := stringToState value }
  else card

/-- Model of `parseFSRSMetadata` (`core/card.go`): fold the matches over the
new-card defaults. -/
def parseFSRSMetadata (now : GoTime) (metadata : Str) : FSRSCard :=
  (findMatches metadata).foldl applyMatch (newCardDefault now)

/-! ## The Card record and the codec (`core/card.go`)

File contents are modelled as their list of newline-separated lines.
`Card.LastModified` (set from the file's mtime, unused by the verified
operations) is omitted. -/

/-- Model of `core.Card`. -/
structure Card where
  question : Str
  answer : Str
  filePath : Str
  fsrs : FSRSCard
  reviewLog : List ReviewLogEntry
  deriving DecidableEq, Repr

/-- The metadata-line test of `ParseCard`: exact prefix and suffix. -/
def isMetaLine (line : Str) : Bool :=
  hasPre line "<!-- FSRS:".data && hasSuf line "-->".data

/-- The body of a metadata line, as `ParseCard` extracts it. -/
def metaBodyOf (line : Str) : Str :=
  trimSp (dropPre (dropSuf line "-->".data) "<!-- FSRS:".data)

/-- The line-scanner state of `ParseCard`: accumulated question and answer
builders, the (last) metadata body, and the `inAnswer` flag. -/
structure ParseSt where
  q : Str
  a : Str
  meta : Str
  inAnswer : Bool
  deriving DecidableEq, Repr

/-- One scanned line of `ParseCard`. -/
def parseStep (st : ParseSt) (line : Str) : ParseSt :=
  if isMetaLine line then { st with meta := metaBodyOf line }
  else if line = "---".data ∧ st.inAnswer = false then { st with inAnswer := true }
  else if st.inAnswer then { st with a := st.a ++ line ++ ['\n'] }
  else { st with q := st.q ++ line ++ ['\n'] }

/-- Model of `ParseCard` (`core/card.go`) on the file's lines. `now` is the clock read
by `fsrs.NewCard()` when no metadata is present. -/
def parseCardLines (now : GoTime) (lines : List Str) (filePath : Str) : Card :=
  let st := lines.foldl parseStep ⟨[], [], [], false⟩
  { question := trimSp st.q
    answer := trimSp st.a
    filePath := filePath
    fsrs := if st.meta.isEmpty then newCardDefault now else parseFSRSMetadata now st.meta
    reviewLog := [] }

/-- The body of the metadata line `UpdateFSRSMetadata` writes
(`"due:%s, stability:%.2f, ..."`). -/
def metaBody (c : FSRSCard) : Str :=
  "due:".data ++ fmtRFC3339 c.due ++
  ", stability:".data ++ fmtF2 c.stability ++
  ", difficulty:".data ++ fmtF2 c.difficulty ++
  ", elapsed_days:".data ++ natToStr c.elapsedDays ++
  ", scheduled_days:".data ++ natToStr c.scheduledDays ++
  ", reps:".data ++ natToStr c.reps ++
  ", lapses:".data ++ natToStr c.lapses ++
  ", state:".data ++ stateToString c.state

/-- The full metadata line `UpdateFSRSMetadata` writes. -/
def fsrsLine (c : FSRSCard) : Str := "<!-- FSRS: ".data ++ metaBody c ++ " -->".data

/-- The content transformation of `UpdateFSRSMetadata` (`core/card.go`):
strip every line with the metadata prefix, then put a fresh metadata line on
top. The I/O wrapper around it either succeeds with this content or fails
leaving the file as it was. -/
def updateFSRSMetadataLines (c : Card) (content : List Str) : List Str :=
  fsrsLine c.fsrs :: content.filter (fun line => !hasPre line "<!-- FSRS:".data)

/-- Model of `GetDueCards` (`core/card.go`); `now` is the call-time clock. -/
def GetDueCards (now : GoTime) (cards : List Card) : List Card :=
  cards.foldl (fun dueCards card =>
    if timeLeB card.fsrs.due now then dueCards ++ [card] else dueCards) []

/-! ## Deck statistics (`core/deck.go`) -/

/-- Model of `core.DeckStats`. -/
structure DeckStats where
  totalCards : Nat
  dueCards : Nat
  newCards : Nat
  learningCards : Nat
  reviewCards : Nat
  deriving DecidableEq, Repr

/-- Model of `GetDeckStats` (`core/deck.go`); `now` is the call-time clock used by
its `GetDueCards` call. -/
def GetDeckStats (now : GoTime) (cards : List Card) : DeckStats :=
  let base : DeckStats :=
    { totalCards := cards.length
      dueCards := (GetDueCards now cards).length
      newCards := 0
      learningCards := 0
      reviewCards := 0 }
  cards.foldl (fun stats card =>
    match card.fsrs.state with
    | .new => { stats with newCards := stats.newCards + 1 }
    | .learning => { stats with learningCards := stats.learningCards + 1 }
    | .relearning => { stats with learningCards := stats.learningCards + 1 }
    | .review => { stats with reviewCards := stats.reviewCards + 1 }) base

/-! ## The review session (`core/scheduler.go`)

The scheduling function (`rs.scheduler.Repeat(card, now)[rating]`, external
`go-fsrs`) is a parameter `sched`; the outcome of the `UpdateFSRSMetadata`
write is the parameter `persistOk`. Go mutates the rated card in place
through its pointer; that is modelled by updating the list entry at the
rated index. -/

/-- The scheduling outcome selected for one rating:
`Repeat(card, now)[rating]`. -/
structure SchedInfo where
  card : FSRSCard
  log : ReviewLogEntry
  deriving DecidableEq, Repr

/-- The abstracted scheduling function. -/
abbrev SchedFn := FSRSCard → GoTime → Rating → SchedInfo

/-- Model of `core.ReviewSession` (the `scheduler` field is the `sched` parameter). -/
structure ReviewSession where
  cards : List Card
  current : Nat
  deriving DecidableEq, Repr

/-- Model of `NewReviewSession`. -/
def NewReviewSession (cards : List Card) : ReviewSession :=
  { cards := cards, current := 0 }

/-- Model of `CurrentCard`. -/
def CurrentCard (rs : ReviewSession) : Except Str Card :=
  if h : rs.current < rs.cards.length then .ok rs.cards[rs.current]
  else .error "no more cards in session".data

/-- Model of `HasNext`. -/
def HasNext (rs : ReviewSession) : Bool := rs.current < rs.cards.length

/-- Model of `Progress`. -/
def Progress (rs : ReviewSession) : Nat × Nat := (rs.current + 1, rs.cards.length)

/-- The rated card after step 2 of `rate`: new scheduling state installed,
log entry appended. -/
def ratedCard (card : Card) (selectedInfo : SchedInfo) : Card :=
  { card with
    fsrs := selectedInfo.card
    reviewLog := card.reviewLog ++ [selectedInfo.log] }

/-- The requeue scan of `RateCard`: for each index in `[0, current]`, a card
that is due and whose file path is absent from the pre-scan tail
`cards[current+1:]` is appended. -/
def requeueScan (now : GoTime) (cards1 : List Card) (current : Nat) : List Card :=
  let remainingCards := cards1.drop (current + 1)
  (cards1.take (current + 1)).foldl
    (fun cards checkCard =>
      if timeLeB checkCard.fsrs.due now then
        if remainingCards.any (fun r => r.filePath == checkCard.filePath) then cards
        else cards ++ [checkCard]
      else cards)
    cards1

/-- Model of `RateCard` (`core/scheduler.go`). Returns the session after the call and
the error, if any. -/
def RateCard (sched : SchedFn) (now : GoTime) (persistOk : Bool) (rating : Rating)
    (rs : ReviewSession) : ReviewSession × Option Str :=
  if h : rs.current < rs.cards.length then
    let card := rs.cards[rs.current]
    let card1 := ratedCard card (sched card.fsrs now rating)
    let cards1 := rs.cards.set rs.current card1
    if persistOk then
      ({ cards := requeueScan now cards1 rs.current, current := rs.current + 1 }, none)
    else
      ({ rs with cards := cards1 }, some "failed to update card metadata".data)
  else
    (rs, some "no cards available to rate".data)

/-- Model of `RatingFromInt` (`core/scheduler.go`). -/
def RatingFromInt (rating : Int) : Except Str Rating :=
  if rating = 1 then .ok .again
  else if rating = 2 then .ok .hard
  else if rating = 3 then .ok .good
  else if rating = 4 then .ok .easy
  else .error "invalid rating: must be 1-4".data

/-- Model of `UpdateCurrentCard` (`core/scheduler.go`). -/
def UpdateCurrentCard (rs : ReviewSession) (card : Card) : ReviewSession :=
  if rs.current < rs.cards.length then { rs with cards := rs.cards.set rs.current card }
  else rs

/-! ## The `rate_card` tool handler (`mcp_simple.go`)

`handleRateCard` after argument decoding: validate the integer rating, parse
the card file, and apply `rateCard` (which re-dispatches the rating switch
and runs `updateCard`: schedule, mutate, persist). The result triple is the
handler outcome, the target file's content after the call, and how many
times the scheduling function was invoked. -/

def handleRateCard (sched : SchedFn) (now : GoTime) (persistOk : Bool) (rating : Int)
    (content : List Str) (filePath : Str) : Except Str Card × List Str × Nat :=
  if rating < 1 ∨ rating > 4 then
    (.error "rating must be an integer between 1-4".data, content, 0)
  else
    let card := parseCardLines now content filePath
    let fsrsRating : Rating :=
      if rating = 1 then .again else if rating = 2 then .hard
      else if rating = 3 then .good else .easy
    let card1 := ratedCard card (sched card.fsrs now fsrsRating)
    if persistOk then
      (.ok card1, updateFSRSMetadataLines card1 content, 1)
    else
      (.error "error rating card: failed to update card metadata".data, content, 1)

/-! ## Spec-side definitions

Definitions written from the spec's words, used to state the claims against
the embedded code. -/

/-- The spec's `due <= now` order on instants. -/
def timeLE (t u : GoTime) : Prop := timeBefore t u = true ∨ t = u

instance (t u : GoTime) : Decidable (timeLE t u) := by
  unfold timeLE
  infer_instance

/-- Spec side of the codec split (C6): the non-metadata remainder. -/
def nonMetaLines (lines : List Str) : List Str :=
  lines.filter (fun line => !isMetaLine line)

/-- Join lines with newlines, as the question/answer text blocks read. -/
def joinNL (lines : List Str) : Str :=
  (List.intersperse ['\n'] lines).flatten

/-- Spec side of the codec split (C6): the trimmed text before the first
`---` line of the non-metadata remainder. -/
def specQuestion (lines : List Str) : Str :=
  trimSp (joinNL ((nonMetaLines lines).takeWhile (fun l => l ≠ "---".data)))

/-- Spec side of the codec split (C6): the trimmed text after the first
`---` line (later `---` lines kept), empty when there is no separator. -/
def specAnswer (lines : List Str) : Str :=
  if "---".data ∈ nonMetaLines lines then
    trimSp (joinNL (((nonMetaLines lines).dropWhile (fun l => l ≠ "---".data)).tail))
  else []

/-- A session operation (C8). The read-only operations `current`, `hasNext`
and `progress` are functions of the state and appear as no-ops. -/
inductive SessionOp where
  | rate (sched : SchedFn) (now : GoTime) (persistOk : Bool) (rating : Rating)
  | updateCurrent (card : Card)
  | currentCard
  | hasNext
  | progress

/-- The session state after one operation. -/
def stepOp (rs : ReviewSession) (op : SessionOp) : ReviewSession :=
  match op with
  | .rate sched now persistOk rating => (RateCard sched now persistOk rating rs).1
  | .updateCurrent card => UpdateCurrentCard rs card
  | .currentCard => rs
  | .hasNext => rs
  | .progress => rs

/-- The session state after a sequence of operations. -/
def stepOps (rs : ReviewSession) (ops : List SessionOp) : ReviewSession :=
  ops.foldl stepOp rs

/-- The spec's "valid scheduling state" (C3): civil due-date fields in
range and counters within the 64-bit signed range `Atoi` accepts back. -/
def ValidSched (s : FSRSCard) : Prop :=
  ValidTime s.due ∧ s.elapsedDays ≤ 2 ^ 63 - 1 ∧ s.scheduledDays ≤ 2 ^ 63 - 1 ∧
  s.reps ≤ 2 ^ 63 - 1 ∧ s.lapses ≤ 2 ^ 63 - 1

/-- The scheduling state a round trip through the codec reproduces: the due
timestamp to the second, stability and difficulty to two decimals. -/
def roundTripped (s : FSRSCard) : FSRSCard :=
  { s with
    due := truncSec s.due
    stability := round2 s.stability
    difficulty := round2 s.difficulty }

/-- The per-state counting step of `GetDeckStats`. -/
def statStep (stats : DeckStats) (card : Card) : DeckStats :=
  match card.fsrs.state with
  | .new => { stats with newCards := stats.newCards + 1 }
  | .learning => { stats with learningCards := stats.learningCards + 1 }
  | .relearning => { stats with learningCards := stats.learningCards + 1 }
  | .review => { stats with reviewCards := stats.reviewCards + 1 }

/-! ### Concrete fixtures shared by the witnesses -/

/-- A concrete instant. -/
def t₀ : GoTime := ⟨2024, 1, 15, 10, 30, 0, 0⟩

/-- A later concrete instant. -/
def t₁ : GoTime := ⟨2024, 1, 16, 10, 30, 0, 0⟩

/-- A concrete card. -/
def cardA : Card :=
  { question := "QA".data
    answer := "AA".data
    filePath := "a.md".data
    fsrs := newCardDefault t₀
    reviewLog := [] }

/-- Another concrete card with a distinct file path. -/
def cardB : Card :=
  { question := "QB".data
    answer := "AB".data
    filePath := "b.md".data
    fsrs := newCardDefault t₀
    reviewLog := [] }

/-- A stub scheduling function: keeps the state, stamps the review time. -/
def schedStub : SchedFn := fun c now r => ⟨{ c with reps := c.reps + 1 }, ⟨r, now⟩⟩

/-! ### C4: rating validation and the fixed 1..4 mapping -/

/-- The fixed rating mapping `1=Again, 2=Hard, 3=Good, 4=Easy`. -/
def ratingOfInt1to4 (rating : Int) : Rating :=
  if rating = 1 then .again else if rating = 2 then .hard
  else if rating = 3 then .good else .easy

/-! ### C6: the question/answer split -/

/-- The text accumulated by the question/answer string builders: each line
followed by a newline. -/
def accNL (lines : List Str) : Str := (lines.map (fun l => l ++ ['\n'])).flatten

/-! The updated content's lines and the metadata thread. -/

/-- The well-formedness the round trip needs: a line with the metadata
prefix also carries the closing suffix. -/
def MetaLinesClosed (content : List Str) : Prop :=
  ∀ l ∈ content, hasPre l "<!-- FSRS:".data = true → hasSuf l "-->".data = true

instance (content : List Str) : Decidable (MetaLinesClosed content) := by
  unfold MetaLinesClosed
  infer_instance

/-! # Theorems -/

/-! ### Facts about digit characters -/

theorem digitChar_spec : ∀ d : Nat, d < 10 →
    (Nat.digitChar d).isDigit = true ∧ charVal (Nat.digitChar d) = d ∧
    isWordChar (Nat.digitChar d) = true ∧ isSpaceChar (Nat.digitChar d) = false ∧
    Nat.digitChar d ≠ ',' ∧ Nat.digitChar d ≠ ':' ∧ Nat.digitChar d ≠ '.' ∧
    Nat.digitChar d ≠ '-' := by decide

theorem natDigitsRev_lt (fuel n : Nat) : ∀ d ∈ natDigitsRev fuel n, d < 10 := by
  induction fuel generalizing n with
  | zero => simp [natDigitsRev]
  | succ fuel ih =>
    intro d hd
    unfold natDigitsRev at hd
    by_cases h : n = 0
    · simp [h] at hd
    · simp [h] at hd
      rcases hd with h1 | h2
      · omega
      · exact ih _ _ h2

theorem natVal_foldl (b : Str) (s : Nat) :
    b.foldl (fun acc c => 10 * acc + charVal c) s = s * 10 ^ b.length + natVal b := by
  induction b generalizing s with
  | nil =>
    rw [show natVal [] = 0 from rfl]
    simp
  | cons c rest ih =>
    rw [show natVal (c :: rest) = rest.foldl (fun acc c => 10 * acc + charVal c) (10 * 0 + charVal c) from rfl]
    simp only [List.foldl_cons, List.length_cons, ih]
    ring

theorem natVal_append (a b : Str) :
    natVal (a ++ b) = natVal a * 10 ^ b.length + natVal b := by
  unfold natVal
  rw [List.foldl_append]
  exact natVal_foldl b _

theorem natVal_digits (fuel n : Nat) (h : n ≤ fuel) :
    natVal ((natDigitsRev fuel n).map Nat.digitChar).reverse = n := by
  induction fuel generalizing n with
  | zero =>
    have : n = 0 := by omega
    simp [this, natDigitsRev, natVal]
  | succ fuel ih =>
    unfold natDigitsRev
    by_cases h0 : n = 0
    · simp [h0, natVal]
    · simp only [h0, if_false, List.map_cons, List.reverse_cons]
      rw [natVal_append]
      have hd : n / 10 ≤ fuel := by omega
      rw [ih _ hd]
      have h10 : n % 10 < 10 := Nat.mod_lt _ (by omega)
      have hcv := (digitChar_spec _ h10).2.1
      rw [show ∀ c : Char, natVal [c] = charVal c from fun c => by simp [natVal, charVal]]
      rw [hcv]
      simp
      omega

theorem natToStr_val (n : Nat) : natVal (natToStr n) = n := by
  unfold natToStr
  by_cases h0 : n = 0
  · simp [h0, natVal, charVal]
  · simp only [h0, if_false]
    exact natVal_digits _ _ (by omega)

theorem natToStr_digits (n : Nat) : ∀ c ∈ natToStr n, c.isDigit = true := by
  unfold natToStr
  by_cases h0 : n = 0
  · simp [h0]
  · simp only [h0, if_false]
    intro c hc
    rw [List.mem_reverse, List.mem_map] at hc
    obtain ⟨d, hd, rfl⟩ := hc
    exact (digitChar_spec d (natDigitsRev_lt _ _ d hd)).1

theorem natToStr_ne_nil (n : Nat) : natToStr n ≠ [] := by
  unfold natToStr
  by_cases h0 : n = 0
  · simp [h0]
  · simp only [h0, if_false]
    intro hcon
    rw [List.reverse_eq_nil_iff, List.map_eq_nil_iff] at hcon
    unfold natDigitsRev at hcon
    simp [h0] at hcon

/-! ## Small list scanning lemmas -/

theorem hasPre_append (p r : Str) : hasPre (p ++ r) p = true := by
  induction p with
  | nil => cases r <;> rfl
  | cons a s ih => simp [hasPre, ih]

theorem hasPre_one (a : Char) (s : Str) (b : Char) :
    hasPre (a :: s) [b] = (a == b) := by
  simp [hasPre]

theorem takeWhile_append_all {α : Type} {p : α → Bool} (l₁ l₂ : List α)
    (h : ∀ a ∈ l₁, p a = true) :
    (l₁ ++ l₂).takeWhile p = l₁ ++ l₂.takeWhile p := by
  induction l₁ with
  | nil => simp
  | cons a s ih =>
    simp only [List.cons_append, List.takeWhile_cons, h a (by simp)]
    rw [ih (fun x hx => h x (by simp [hx]))]
    simp

theorem dropWhile_append_all {α : Type} {p : α → Bool} (l₁ l₂ : List α)
    (h : ∀ a ∈ l₁, p a = true) :
    (l₁ ++ l₂).dropWhile p = l₂.dropWhile p := by
  induction l₁ with
  | nil => simp
  | cons a s ih =>
    simp only [List.cons_append, List.dropWhile_cons, h a (by simp)]
    exact ih (fun x hx => h x (by simp [hx]))

theorem takeWhile_cons_neg {α : Type} {p : α → Bool} (c : α) (l : List α) (h : p c = false) :
    (c :: l).takeWhile p = [] := by
  simp [List.takeWhile_cons, h]

theorem dropWhile_cons_neg {α : Type} {p : α → Bool} (c : α) (l : List α) (h : p c = false) :
    (c :: l).dropWhile p = c :: l := by
  simp [List.dropWhile_cons, h]

theorem takeWhile_cons_pos {α : Type} {p : α → Bool} (c : α) (l : List α) (h : p c = true) :
    (c :: l).takeWhile p = c :: l.takeWhile p := by
  simp [List.takeWhile_cons, h]

theorem dropWhile_cons_pos {α : Type} {p : α → Bool} (c : α) (l : List α) (h : p c = true) :
    (c :: l).dropWhile p = l.dropWhile p := by
  simp [List.dropWhile_cons, h]

theorem dropPre_append (p l : Str) : dropPre (p ++ l) p = l := by
  simp [dropPre, hasPre_append, List.drop_left]

theorem hasSuf_append (l p : Str) : hasSuf (l ++ p) p = true := by
  simp [hasSuf, List.reverse_append, hasPre_append]

theorem dropSuf_append (l p : Str) : dropSuf (l ++ p) p = l := by
  simp only [dropSuf, hasSuf_append, if_true, List.length_append]
  rw [show l.length + p.length - p.length = l.length by omega, List.take_left]

theorem natToStr_not_sign (n : Nat) (c : Char) (hc : c.isDigit = false) :
    hasPre (natToStr n) [c] = false := by
  rcases hs : natToStr n with _ | ⟨a, s⟩
  · exact absurd hs (natToStr_ne_nil n)
  · rw [hasPre_one]
    have ha : a.isDigit = true := natToStr_digits n a (by rw [hs]; simp)
    rw [beq_eq_false_iff_ne]
    intro hcon
    rw [hcon, hc] at ha
    exact Bool.false_ne_true ha

theorem goAtoi_natToStr (n : Nat) (h : n ≤ 2 ^ 63 - 1) :
    goAtoi (natToStr n) = some (n : Int) := by
  unfold goAtoi
  rw [natToStr_not_sign n '-' (by decide), natToStr_not_sign n '+' (by decide)]
  simp only [Bool.false_eq_true, if_false]
  unfold parseNatDigits
  have h1 : (natToStr n).isEmpty = false := by
    rcases hs : natToStr n with _ | ⟨a, s⟩
    · exact absurd hs (natToStr_ne_nil n)
    · rfl
  have h2 : (natToStr n).all Char.isDigit = true := by
    rw [List.all_eq_true]; exact natToStr_digits n
  simp only [h1, h2, Bool.not_false, Bool.and_self, if_true, Option.bind_some, natToStr_val]
  rw [Option.some_bind, if_pos (by omega)]

theorem read2_pad2 (n : Nat) (h : n ≤ 99) :
    read2 (Nat.digitChar (n / 10 % 10)) (Nat.digitChar (n % 10)) = some n := by
  have h1 := digitChar_spec (n / 10 % 10) (Nat.mod_lt _ (by omega))
  have h2 := digitChar_spec (n % 10) (Nat.mod_lt _ (by omega))
  rw [read2, h1.1, h2.1]
  simp only [Bool.and_self, if_true, h1.2.1, h2.2.1, Option.some.injEq]
  omega

theorem read4_pad4 (n : Nat) (h : n ≤ 9999) :
    read4 (Nat.digitChar (n / 1000 % 10)) (Nat.digitChar (n / 100 % 10))
      (Nat.digitChar (n / 10 % 10)) (Nat.digitChar (n % 10)) = some n := by
  have h1 := digitChar_spec (n / 1000 % 10) (Nat.mod_lt _ (by omega))
  have h2 := digitChar_spec (n / 100 % 10) (Nat.mod_lt _ (by omega))
  have h3 := digitChar_spec (n / 10 % 10) (Nat.mod_lt _ (by omega))
  have h4 := digitChar_spec (n % 10) (Nat.mod_lt _ (by omega))
  rw [read4, h1.1, h2.1, h3.1, h4.1]
  simp only [Bool.and_self, if_true, h1.2.1, h2.2.1, h3.2.1, h4.2.1, Option.some.injEq]
  omega

theorem parseRFC3339_fmt (t : GoTime) (h : ValidTime t) :
    parseRFC3339 (fmtRFC3339 t) = some (truncSec t) := by
  obtain ⟨hy, hm1, hm2, hd1, hd2, hh, hmi, hs⟩ := h
  show parseRFC3339
      [Nat.digitChar (t.year / 1000 % 10), Nat.digitChar (t.year / 100 % 10),
       Nat.digitChar (t.year / 10 % 10), Nat.digitChar (t.year % 10), '-',
       Nat.digitChar (t.month / 10 % 10), Nat.digitChar (t.month % 10), '-',
       Nat.digitChar (t.day / 10 % 10), Nat.digitChar (t.day % 10), 'T',
       Nat.digitChar (t.hour / 10 % 10), Nat.digitChar (t.hour % 10), ':',
       Nat.digitChar (t.minute / 10 % 10), Nat.digitChar (t.minute % 10), ':',
       Nat.digitChar (t.second / 10 % 10), Nat.digitChar (t.second % 10), 'Z'] =
      some (truncSec t)
  rw [parseRFC3339]
  rw [read4_pad4 t.year hy, read2_pad2 t.month (by omega), read2_pad2 t.day (by omega),
      read2_pad2 t.hour (by omega), read2_pad2 t.minute (by omega),
      read2_pad2 t.second (by omega)]
  show (if 1 ≤ t.month ∧ t.month ≤ 12 ∧ 1 ≤ t.day ∧ t.day ≤ 31 ∧
          t.hour ≤ 23 ∧ t.minute ≤ 59 ∧ t.second ≤ 59 then
        some (⟨t.year, t.month, t.day, t.hour, t.minute, t.second, 0⟩ : GoTime)
      else none) = some (truncSec t)
  rw [if_pos ⟨hm1, hm2, hd1, hd2, hh, hmi, hs⟩]
  rfl

theorem pad2_digits (n : Nat) : ∀ c ∈ pad2 n, c.isDigit = true := by
  intro c hc
  have h1 := digitChar_spec (n / 10 % 10) (Nat.mod_lt _ (by omega))
  have h2 := digitChar_spec (n % 10) (Nat.mod_lt _ (by omega))
  rcases hc with _ | ⟨_, hc⟩
  · exact h1.1
  · rcases hc with _ | ⟨_, hc⟩
    · exact h2.1
    · cases hc

theorem natVal_pad2 (n : Nat) (h : n ≤ 99) : natVal (pad2 n) = n := by
  have h1 := digitChar_spec (n / 10 % 10) (Nat.mod_lt _ (by omega))
  have h2 := digitChar_spec (n % 10) (Nat.mod_lt _ (by omega))
  show 10 * (10 * 0 + charVal (Nat.digitChar (n / 10 % 10))) + charVal (Nat.digitChar (n % 10)) = n
  rw [h1.2.1, h2.2.1]
  omega

theorem goParseFloat_unsigned (a : Nat) (b : Nat) (hb : b ≤ 99) :
    goParseFloat (natToStr a ++ '.' :: pad2 b) =
      some ((a : ℚ) + (b : ℚ) / 100) := by
  have hpre : ∀ c : Char, c.isDigit = false →
      hasPre (natToStr a ++ '.' :: pad2 b) [c] = false := by
    intro c hc
    rcases hs : natToStr a with _ | ⟨x, s⟩
    · exact absurd hs (natToStr_ne_nil a)
    · rw [List.cons_append, hasPre_one, beq_eq_false_iff_ne]
      intro hcon
      have hx : x.isDigit = true := natToStr_digits a x (by rw [hs]; simp)
      rw [hcon, hc] at hx
      exact Bool.false_ne_true hx
  unfold goParseFloat
  rw [hpre '-' (by decide), hpre '+' (by decide)]
  simp only [Bool.false_eq_true, if_false, Bool.or_self]
  rw [takeWhile_append_all _ _ (natToStr_digits a),
      dropWhile_append_all _ _ (natToStr_digits a),
      takeWhile_cons_neg '.' _ (by decide), dropWhile_cons_neg '.' _ (by decide)]
  have hne : (natToStr a ++ ([] : Str)).isEmpty = false := by
    rcases hs : natToStr a with _ | ⟨x, s⟩
    · exact absurd hs (natToStr_ne_nil a)
    · rfl
  simp only [List.append_nil] at hne ⊢
  rw [hne]
  simp only [Bool.false_eq_true, if_false]
  have hfrac : (!(pad2 b).isEmpty && (pad2 b).all Char.isDigit) = true := by
    rw [Bool.and_eq_true, List.all_eq_true]
    exact ⟨rfl, pad2_digits b⟩
  rw [hfrac]
  simp only [if_true, natToStr_val, natVal_pad2 b hb]
  rw [show (pad2 b).length = 2 from rfl]
  norm_num

theorem goParseFloat_fmtF2 (q : ℚ) : goParseFloat (fmtF2 q) = some (round2 q) := by
  unfold fmtF2
  set z : Int := round (q * 100) with hz
  have key : ((z.natAbs / 100 : Nat) : ℚ) + ((z.natAbs % 100 : Nat) : ℚ) / 100 =
      (z.natAbs : ℚ) / 100 := by
    have hgen : ∀ a b : Nat, (a : ℚ) + (b : ℚ) / 100 = ((100 * a + b : Nat) : ℚ) / 100 := by
      intro a b
      push_cast
      ring
    rw [hgen (z.natAbs / 100) (z.natAbs % 100),
        show 100 * (z.natAbs / 100) + z.natAbs % 100 = z.natAbs from by omega]
  by_cases hneg : z < 0
  · simp only [hneg, if_true, List.singleton_append]
    have : goParseFloat ('-' :: (natToStr (z.natAbs / 100) ++ '.' :: pad2 (z.natAbs % 100))) =
        some (-(((z.natAbs / 100 : Nat) : ℚ) + ((z.natAbs % 100 : Nat) : ℚ) / 100)) := by
      unfold goParseFloat
      rw [show hasPre ('-' :: (natToStr (z.natAbs / 100) ++ '.' :: pad2 (z.natAbs % 100))) ['-'] = true
            by rw [hasPre_one]; rfl]
      simp only [if_true, Bool.true_or, List.drop_one, List.tail_cons]
      rw [takeWhile_append_all _ _ (natToStr_digits _),
          dropWhile_append_all _ _ (natToStr_digits _),
          takeWhile_cons_neg '.' _ (by decide), dropWhile_cons_neg '.' _ (by decide)]
      have hne : (natToStr (z.natAbs / 100) ++ ([] : Str)).isEmpty = false := by
        rcases hs : natToStr (z.natAbs / 100) with _ | ⟨x, s⟩
        · exact absurd hs (natToStr_ne_nil _)
        · rfl
      simp only [List.append_nil] at hne ⊢
      rw [hne]
      simp only [Bool.false_eq_true, if_false]
      have hfrac : (!(pad2 (z.natAbs % 100)).isEmpty && (pad2 (z.natAbs % 100)).all Char.isDigit) = true := by
        rw [Bool.and_eq_true, List.all_eq_true]
        exact ⟨rfl, pad2_digits _⟩
      rw [hfrac]
      simp only [if_true, natToStr_val, natVal_pad2 (z.natAbs % 100) (by omega)]
      rw [show (pad2 (z.natAbs % 100)).length = 2 from rfl]
      norm_num
    rw [List.cons_append, this, key]
    unfold round2
    congr 1
    rw [← hz]
    have habs : (z.natAbs : ℚ) = -(z : ℚ) := by
      have h1 : (z.natAbs : ℤ) = -z := by omega
      calc (z.natAbs : ℚ) = ((z.natAbs : ℤ) : ℚ) := (Int.cast_natCast _).symm
        _ = -(z : ℚ) := by rw [h1]; push_cast; ring
    rw [habs]
    ring
  · simp only [hneg, if_false, List.nil_append]
    rw [goParseFloat_unsigned _ _ (by omega), key]
    unfold round2
    congr 1
    rw [← hz]
    have habs : (z.natAbs : ℚ) = (z : ℚ) := by
      have h1 : (z.natAbs : ℤ) = z := by omega
      calc (z.natAbs : ℚ) = ((z.natAbs : ℤ) : ℚ) := (Int.cast_natCast _).symm
        _ = (z : ℚ) := by rw [h1]
    rw [habs]

/-! ### C5: the due filter -/

theorem timeLeB_iff (t u : GoTime) : timeLeB t u = true ↔ timeLE t u := by
  unfold timeLeB timeLE
  rw [Bool.or_eq_true, beq_iff_eq]

theorem getDueCards_foldl_mem (now : GoTime) (cards : List Card) (c : Card) :
    ∀ acc : List Card,
      (c ∈ cards.foldl (fun dueCards card =>
        if timeLeB card.fsrs.due now then dueCards ++ [card] else dueCards) acc ↔
      c ∈ acc ∨ (c ∈ cards ∧ timeLeB c.fsrs.due now = true)) := by
  induction cards with
  | nil => simp
  | cons d rest ih =>
    intro acc
    simp only [List.foldl_cons]
    by_cases hd : timeLeB d.fsrs.due now = true
    · rw [hd, if_pos rfl, ih]
      simp only [List.mem_append, List.mem_cons, List.not_mem_nil, or_false]
      constructor
      · rintro ((h | rfl) | ⟨h1, h2⟩)
        · exact Or.inl h
        · exact Or.inr ⟨Or.inl rfl, hd⟩
        · exact Or.inr ⟨Or.inr h1, h2⟩
      · rintro (h | ⟨(rfl | h1), h2⟩)
        · exact Or.inl (Or.inl h)
        · exact Or.inl (Or.inr rfl)
        · exact Or.inr ⟨h1, h2⟩
    · rw [Bool.not_eq_true] at hd
      rw [hd]
      simp only [Bool.false_eq_true, if_false, ih, List.mem_cons]
      constructor
      · rintro (h | ⟨h1, h2⟩)
        · exact Or.inl h
        · exact Or.inr ⟨Or.inr h1, h2⟩
      · rintro (h | ⟨(rfl | h1), h2⟩)
        · exact Or.inl h
        · rw [hd] at h2; exact absurd h2 Bool.false_ne_true
        · exact Or.inr ⟨h1, h2⟩

/-- C5: a card is in the `GetDueCards` result exactly when its due
timestamp is `<=` the call-time clock; due equal to now is included. -/
theorem claim_C5_due_filter (now : GoTime) (cards : List Card) (c : Card) :
    (c ∈ GetDueCards now cards ↔ c ∈ cards ∧ timeLE c.fsrs.due now) ∧
    (c.fsrs.due = now → c ∈ cards → c ∈ GetDueCards now cards) := by
  have hmem : c ∈ GetDueCards now cards ↔ c ∈ cards ∧ timeLE c.fsrs.due now := by
    unfold GetDueCards
    rw [getDueCards_foldl_mem]
    simp only [List.not_mem_nil, false_or, timeLeB_iff]
  exact ⟨hmem, fun heq hc => hmem.mpr ⟨hc, Or.inr heq⟩⟩

theorem statStep_foldl (cards : List Card) : ∀ base : DeckStats,
    (cards.foldl statStep base).newCards =
      base.newCards + cards.countP (fun c => c.fsrs.state == .new) ∧
    (cards.foldl statStep base).learningCards =
      base.learningCards +
        cards.countP (fun c => c.fsrs.state == .learning || c.fsrs.state == .relearning) ∧
    (cards.foldl statStep base).reviewCards =
      base.reviewCards + cards.countP (fun c => c.fsrs.state == .review) ∧
    (cards.foldl statStep base).totalCards = base.totalCards ∧
    (cards.foldl statStep base).dueCards = base.dueCards := by
  induction cards with
  | nil => intro base; simp
  | cons c rest ih =>
    intro base
    simp only [List.foldl_cons, List.countP_cons]
    obtain ⟨ihn, ihl, ihr, iht, ihd⟩ := ih (statStep base c)
    rcases hst : c.fsrs.state with _ | _ | _ | _ <;>
      simp only [statStep, hst] at ihn ihl ihr iht ihd ⊢ <;>
      refine ⟨?_, ?_, ?_, ?_, ?_⟩ <;>
      simp [ihn, ihl, ihr, iht, ihd, hst] <;> omega

/-- C10: `GetDeckStats` folds Relearning into the learning bucket: for every
card list the learning count is the number of Learning-or-Relearning cards,
and the new, learning, and review counts sum to the total. -/
theorem claim_C10_stats_relearning (now : GoTime) (cards : List Card) :
    (GetDeckStats now cards).learningCards =
      cards.countP (fun c => c.fsrs.state == .learning || c.fsrs.state == .relearning) ∧
    (GetDeckStats now cards).newCards + (GetDeckStats now cards).learningCards +
      (GetDeckStats now cards).reviewCards = (GetDeckStats now cards).totalCards := by
  have hfold := statStep_foldl cards
    { totalCards := cards.length
      dueCards := (GetDueCards now cards).length
      newCards := 0
      learningCards := 0
      reviewCards := 0 }
  have hdef : GetDeckStats now cards = cards.foldl statStep
      { totalCards := cards.length
        dueCards := (GetDueCards now cards).length
        newCards := 0
        learningCards := 0
        reviewCards := 0 } := rfl
  obtain ⟨hn, hl, hr, ht, _⟩ := hfold
  have hsum : ∀ l : List Card,
      l.countP (fun c => c.fsrs.state == .new) +
      l.countP (fun c => c.fsrs.state == .learning || c.fsrs.state == .relearning) +
      l.countP (fun c => c.fsrs.state == .review) = l.length := by
    intro l
    induction l with
    | nil => simp
    | cons c rest ihl =>
      simp only [List.countP_cons, List.length_cons]
      rcases hst : c.fsrs.state with _ | _ | _ | _ <;> simp [hst] <;> omega
  constructor
  · rw [hdef, hl]
    exact Nat.zero_add _
  · rw [hdef, hn, hl, hr, ht, Nat.zero_add, Nat.zero_add, Nat.zero_add]
    exact hsum cards

/-! ### C2, C9: behavior of `RateCard` on a persistence failure -/

/-- C2: when the persistence step fails, `RateCard` returns the error, the
cursor keeps its value, and no requeue append happens (the sequence keeps
its length). -/
theorem claim_C2_persist_failure_retryable (sched : SchedFn) (now : GoTime) (rating : Rating)
    (rs : ReviewSession) (h : rs.current < rs.cards.length) :
    (RateCard sched now false rating rs).2 = some "failed to update card metadata".data ∧
    (RateCard sched now false rating rs).1.current = rs.current ∧
    (RateCard sched now false rating rs).1.cards.length = rs.cards.length := by
  unfold RateCard
  rw [dif_pos h]
  simp

theorem claim_C2_witness :
    (RateCard schedStub t₀ false .again (NewReviewSession [cardA])).2 =
      some "failed to update card metadata".data ∧
    (RateCard schedStub t₀ false .again (NewReviewSession [cardA])).1.current =
      (NewReviewSession [cardA]).current ∧
    (RateCard schedStub t₀ false .again (NewReviewSession [cardA])).1.cards.length =
      (NewReviewSession [cardA]).cards.length :=
  claim_C2_persist_failure_retryable schedStub t₀ .again (NewReviewSession [cardA])
    (by decide)

/-- C9: on a persistence failure the in-memory card has already been
mutated — the entry at the cursor carries the newly computed scheduling
state and the appended review-log entry — while the cursor and the rest of
the queue are unchanged. -/
theorem claim_C9_card_mutated_before_persist (sched : SchedFn) (now : GoTime) (rating : Rating)
    (rs : ReviewSession) (h : rs.current < rs.cards.length) :
    (RateCard sched now false rating rs).2.isSome = true ∧
    (RateCard sched now false rating rs).1.current = rs.current ∧
    (RateCard sched now false rating rs).1.cards =
      rs.cards.set rs.current
        (ratedCard (rs.cards.get ⟨rs.current, h⟩)
          (sched (rs.cards.get ⟨rs.current, h⟩).fsrs now rating)) := by
  unfold RateCard
  rw [dif_pos h]
  simp [List.get_eq_getElem]

theorem claim_C9_witness :
    (RateCard schedStub t₀ false .again (NewReviewSession [cardA])).2.isSome = true ∧
    (RateCard schedStub t₀ false .again (NewReviewSession [cardA])).1.current =
      (NewReviewSession [cardA]).current ∧
    (RateCard schedStub t₀ false .again (NewReviewSession [cardA])).1.cards =
      (NewReviewSession [cardA]).cards.set (NewReviewSession [cardA]).current
        (ratedCard ((NewReviewSession [cardA]).cards.get ⟨0, by decide⟩)
          (schedStub ((NewReviewSession [cardA]).cards.get ⟨0, by decide⟩).fsrs t₀ .again)) :=
  claim_C9_card_mutated_before_persist schedStub t₀ .again (NewReviewSession [cardA])
    (by decide)

/-! ### C1: the requeue property on a two-card session -/

/-- C1: over a session `[A, B]` with distinct file paths, if rating `A` as
`Again` yields a due timestamp `<=` the rating time, then after the
(successfully persisted) `rate` call the sequence is `[A, B, A]` — `A`
updated in place and appended once at the tail, with its file path
unchanged — and the cursor is `1`, so `B` is next. -/
theorem claim_C1_requeue_two_cards (sched : SchedFn) (now : GoTime) (A B : Card)
    (hpath : A.filePath ≠ B.filePath)
    (hdue : timeLE (sched A.fsrs now .again).card.due now) :
    RateCard sched now true .again (NewReviewSession [A, B]) =
      ({ cards := [ratedCard A (sched A.fsrs now .again), B,
                   ratedCard A (sched A.fsrs now .again)],
         current := 1 }, none) ∧
    (ratedCard A (sched A.fsrs now .again)).filePath = A.filePath := by
  have hdueB : timeLeB (ratedCard A (sched A.fsrs now .again)).fsrs.due now = true := by
    rw [timeLeB_iff]
    exact hdue
  have hA : (NewReviewSession [A, B]).cards = [A, B] := rfl
  have hcur : (NewReviewSession [A, B]).current = 0 := rfl
  have hlt : (NewReviewSession [A, B]).current < (NewReviewSession [A, B]).cards.length := by
    show (0 : Nat) < 2
    omega
  unfold RateCard
  rw [dif_pos hlt]
  simp only [hA, hcur, if_true]
  constructor
  · have hset : ([A, B].set 0 (ratedCard A (sched A.fsrs now .again))) =
        [ratedCard A (sched A.fsrs now .again), B] := rfl
    rw [show ([A, B] : List Card)[0] = A from rfl, hset]
    unfold requeueScan
    have htake : ([ratedCard A (sched A.fsrs now .again), B].take (0 + 1)) =
        [ratedCard A (sched A.fsrs now .again)] := rfl
    have hdrop : ([ratedCard A (sched A.fsrs now .again), B].drop (0 + 1)) = [B] := rfl
    rw [htake, hdrop]
    simp only [List.foldl_cons, List.foldl_nil, hdueB, if_true]
    have hany : ([B].any fun r =>
        r.filePath == (ratedCard A (sched A.fsrs now .again)).filePath) = false := by
      simp only [List.any_cons, List.any_nil, Bool.or_false]
      rw [beq_eq_false_iff_ne]
      intro hcon
      exact hpath hcon.symm
    rw [hany]
    simp
  · rfl

theorem claim_C1_witness :
    RateCard schedStub t₀ true .again (NewReviewSession [cardA, cardB]) =
      ({ cards := [ratedCard cardA (schedStub cardA.fsrs t₀ .again), cardB,
                   ratedCard cardA (schedStub cardA.fsrs t₀ .again)],
         current := 1 }, none) ∧
    (ratedCard cardA (schedStub cardA.fsrs t₀ .again)).filePath = cardA.filePath :=
  claim_C1_requeue_two_cards schedStub t₀ cardA cardB (by decide) (by decide)

/-! ### C8: session invariants -/

theorem requeueScan_append (now : GoTime) (cards1 : List Card) (current : Nat) :
    ∃ t, requeueScan now cards1 current = cards1 ++ t := by
  unfold requeueScan
  generalize cards1.take (current + 1) = scanned
  generalize cards1.drop (current + 1) = remainingCards
  induction scanned generalizing cards1 with
  | nil => exact ⟨[], by simp⟩
  | cons c rest ih =>
    simp only [List.foldl_cons]
    by_cases h1 : timeLeB c.fsrs.due now = true
    · rw [h1, if_pos rfl]
      by_cases h2 : (remainingCards.any fun r => r.filePath == c.filePath) = true
      · rw [if_pos h2]
        exact ih cards1
      · rw [if_neg h2]
        obtain ⟨t, ht⟩ := ih (cards1 ++ [c])
        exact ⟨[c] ++ t, by rw [ht, List.append_assoc]⟩
    · rw [Bool.not_eq_true] at h1
      rw [h1]
      simp only [Bool.false_eq_true, if_false]
      exact ih cards1

theorem map_set_same (l : List Card) (i : Nat) (c : Card)
    (hpath : ∀ h : i < l.length, c.filePath = (l.get ⟨i, h⟩).filePath) :
    (l.set i c).map Card.filePath = l.map Card.filePath := by
  induction l generalizing i with
  | nil => simp
  | cons d rest ih =>
    cases i with
    | zero =>
      simp only [List.set_cons_zero, List.map_cons]
      rw [hpath (by simp)]
      rfl
    | succ j =>
      simp only [List.set_cons_succ, List.map_cons]
      rw [ih j (fun h => hpath (by simpa using Nat.succ_lt_succ h))]

theorem stepOp_mono (rs : ReviewSession) (op : SessionOp) :
    rs.current ≤ (stepOp rs op).current ∧
    rs.cards.length ≤ (stepOp rs op).cards.length := by
  cases op with
  | rate sched now persistOk rating =>
    show rs.current ≤ (RateCard sched now persistOk rating rs).1.current ∧
      rs.cards.length ≤ (RateCard sched now persistOk rating rs).1.cards.length
    unfold RateCard
    by_cases h : rs.current < rs.cards.length
    · rw [dif_pos h]
      by_cases hp : persistOk = true
      · subst hp
        simp only [if_true]
        obtain ⟨t, ht⟩ :=
          requeueScan_append now (rs.cards.set rs.current
            (ratedCard rs.cards[rs.current] (sched rs.cards[rs.current].fsrs now rating)))
            rs.current
        constructor
        · exact Nat.le_succ _
        · show rs.cards.length ≤ (requeueScan now _ rs.current).length
          rw [ht]
          simp
      · rw [Bool.not_eq_true] at hp
        rw [hp]
        simp
    · rw [dif_neg h]
      exact ⟨Nat.le_refl _, Nat.le_refl _⟩
  | updateCurrent card =>
    show rs.current ≤ (UpdateCurrentCard rs card).current ∧
      rs.cards.length ≤ (UpdateCurrentCard rs card).cards.length
    unfold UpdateCurrentCard
    by_cases h : rs.current < rs.cards.length
    · rw [if_pos h]
      simp
    · rw [if_neg h]
      exact ⟨Nat.le_refl _, Nat.le_refl _⟩
  | currentCard => exact ⟨Nat.le_refl _, Nat.le_refl _⟩
  | hasNext => exact ⟨Nat.le_refl _, Nat.le_refl _⟩
  | progress => exact ⟨Nat.le_refl _, Nat.le_refl _⟩

/-- C8: over every sequence of session operations the cursor never
decreases and the sequence length never decreases; a `rate` step only
extends the file-path sequence at the tail; `updateCurrent` replaces the
entry at the cursor in place, changing neither cursor nor length. -/
theorem claim_C8_session_invariant (rs : ReviewSession) (ops : List SessionOp) :
    rs.current ≤ (stepOps rs ops).current ∧
    rs.cards.length ≤ (stepOps rs ops).cards.length ∧
    (∀ sched now persistOk rating, ∃ t,
      (stepOp rs (.rate sched now persistOk rating)).cards.map Card.filePath =
        rs.cards.map Card.filePath ++ t) ∧
    (∀ card, rs.current < rs.cards.length →
      (stepOp rs (.updateCurrent card)).cards = rs.cards.set rs.current card ∧
      (stepOp rs (.updateCurrent card)).current = rs.current ∧
      (stepOp rs (.updateCurrent card)).cards.length = rs.cards.length) := by
  refine ⟨?_, ?_, ?_, ?_⟩
  · show rs.current ≤ (ops.foldl stepOp rs).current
    induction ops generalizing rs with
    | nil => exact Nat.le_refl _
    | cons op rest ih =>
      exact Nat.le_trans (stepOp_mono rs op).1 (ih (stepOp rs op))
  · show rs.cards.length ≤ (ops.foldl stepOp rs).cards.length
    induction ops generalizing rs with
    | nil => exact Nat.le_refl _
    | cons op rest ih =>
      exact Nat.le_trans (stepOp_mono rs op).2 (ih (stepOp rs op))
  · intro sched now persistOk rating
    show ∃ t, (RateCard sched now persistOk rating rs).1.cards.map Card.filePath =
      rs.cards.map Card.filePath ++ t
    unfold RateCard
    by_cases h : rs.current < rs.cards.length
    · rw [dif_pos h]
      have hset : (rs.cards.set rs.current
          (ratedCard rs.cards[rs.current]
            (sched rs.cards[rs.current].fsrs now rating))).map Card.filePath =
          rs.cards.map Card.filePath :=
        map_set_same _ _ _ (fun hh => rfl)
      by_cases hp : persistOk = true
      · subst hp
        simp only [if_true]
        obtain ⟨t, ht⟩ := requeueScan_append now (rs.cards.set rs.current
          (ratedCard rs.cards[rs.current] (sched rs.cards[rs.current].fsrs now rating)))
          rs.current
        refine ⟨t.map Card.filePath, ?_⟩
        show (requeueScan now _ rs.current).map Card.filePath = _
        rw [ht, List.map_append, hset]
      · rw [Bool.not_eq_true] at hp
        rw [hp]
        simp only [Bool.false_eq_true, if_false]
        exact ⟨[], by rw [List.append_nil]; exact hset⟩
    · rw [dif_neg h]
      exact ⟨[], by rw [List.append_nil]⟩
  · intro card h
    show (UpdateCurrentCard rs card).cards = rs.cards.set rs.current card ∧
      (UpdateCurrentCard rs card).current = rs.current ∧
      (UpdateCurrentCard rs card).cards.length = rs.cards.length
    unfold UpdateCurrentCard
    rw [if_pos h]
    exact ⟨rfl, rfl, by simp⟩

theorem claim_C8_witness :
    (NewReviewSession [cardA]).current ≤
      (stepOps (NewReviewSession [cardA]) [.updateCurrent cardB]).current ∧
    (stepOps (NewReviewSession [cardA]) [.updateCurrent cardB]).cards =
      (NewReviewSession [cardA]).cards.set (NewReviewSession [cardA]).current cardB := by
  have h := claim_C8_session_invariant (NewReviewSession [cardA]) [.updateCurrent cardB]
  exact ⟨h.1, ((h.2.2.2 cardB (by decide)).1 :)⟩

/-- C4: an integer rating outside `1..4` makes `rate_card` fail with the
validation error before the scheduling function runs and with the file
byte-for-byte unchanged (and `RatingFromInt` rejects it likewise); an
integer in `1..4` is mapped by the fixed table `1=Again, 2=Hard, 3=Good,
4=Easy` both by `RatingFromInt` and by the handler's scheduling call. -/
theorem claim_C4_rating_validation (sched : SchedFn) (now : GoTime) (persistOk : Bool)
    (rating : Int) (content : List Str) (filePath : Str) :
    ((rating < 1 ∨ 4 < rating) →
      handleRateCard sched now persistOk rating content filePath =
        (.error "rating must be an integer between 1-4".data, content, 0) ∧
      RatingFromInt rating = .error "invalid rating: must be 1-4".data) ∧
    (1 ≤ rating → rating ≤ 4 →
      RatingFromInt rating = .ok (ratingOfInt1to4 rating) ∧
      (handleRateCard sched now true rating content filePath).1 =
        .ok (ratedCard (parseCardLines now content filePath)
          (sched (parseCardLines now content filePath).fsrs now (ratingOfInt1to4 rating))) ∧
      (handleRateCard sched now persistOk rating content filePath).2.2 = 1) ∧
    RatingFromInt 1 = .ok .again ∧ RatingFromInt 2 = .ok .hard ∧
    RatingFromInt 3 = .ok .good ∧ RatingFromInt 4 = .ok .easy := by
  refine ⟨?_, ?_, rfl, rfl, rfl, rfl⟩
  · intro hout
    constructor
    · unfold handleRateCard
      rw [if_pos (by omega)]
    · unfold RatingFromInt
      rw [if_neg (by omega), if_neg (by omega), if_neg (by omega), if_neg (by omega)]
  · intro h1 h4
    have hcases : rating = 1 ∨ rating = 2 ∨ rating = 3 ∨ rating = 4 := by omega
    rcases hcases with rfl | rfl | rfl | rfl <;>
      exact ⟨rfl, rfl, by cases persistOk <;> rfl⟩

theorem claim_C4_witness :
    handleRateCard schedStub t₀ true 0 [] "a.md".data =
      (.error "rating must be an integer between 1-4".data, [], 0) ∧
    handleRateCard schedStub t₀ true 5 [] "a.md".data =
      (.error "rating must be an integer between 1-4".data, [], 0) ∧
    RatingFromInt 3 = .ok (ratingOfInt1to4 3) := by
  refine ⟨?_, ?_, ?_⟩
  · exact ((claim_C4_rating_validation schedStub t₀ true 0 [] "a.md".data).1
      (by omega)).1
  · exact ((claim_C4_rating_validation schedStub t₀ true 5 [] "a.md".data).1
      (by omega)).1
  · exact ((claim_C4_rating_validation schedStub t₀ true 3 [] "a.md".data).2.1
      (by omega) (by omega)).1

theorem accNL_nil : accNL [] = [] := rfl

theorem accNL_cons (l : Str) (rest : List Str) :
    accNL (l :: rest) = (l ++ ['\n']) ++ accNL rest := by
  simp [accNL]

theorem accNL_eq_joinNL (lines : List Str) (h : lines ≠ []) :
    accNL lines = joinNL lines ++ ['\n'] := by
  induction lines with
  | nil => exact absurd rfl h
  | cons l rest ih =>
    cases rest with
    | nil => simp [accNL, joinNL]
    | cons m r =>
      have hr : accNL (m :: r) = joinNL (m :: r) ++ ['\n'] := ih (by simp)
      rw [accNL_cons, hr]
      show (l ++ ['\n']) ++ (joinNL (m :: r) ++ ['\n']) =
        (l ++ ('\n' :: (List.intersperse ['\n'] (m :: r)).flatten)) ++ ['\n']
      simp [joinNL]

theorem dropWhile_append_ne_nil {α : Type} {p : α → Bool} (a b : List α)
    (h : a.dropWhile p ≠ []) :
    (a ++ b).dropWhile p = a.dropWhile p ++ b := by
  induction a with
  | nil => exact absurd rfl h
  | cons x xs ih =>
    by_cases hx : p x = true
    · simp only [List.cons_append, List.dropWhile_cons, hx, if_true]
      rw [List.dropWhile_cons, hx] at h
      simp only [if_true] at h
      exact ih h
    · rw [Bool.not_eq_true] at hx
      simp only [List.cons_append, List.dropWhile_cons, hx]
      simp

theorem trimSp_append_space (s w : Str) (hw : ∀ c ∈ w, isSpaceChar c = true) :
    trimSp (s ++ w) = trimSp s := by
  by_cases hs : s.dropWhile isSpaceChar = []
  · have hall : ∀ c ∈ s, isSpaceChar c = true := List.dropWhile_eq_nil_iff.mp hs
    have h1 : (s ++ w).dropWhile isSpaceChar = [] := by
      rw [List.dropWhile_eq_nil_iff]
      intro c hc
      rcases List.mem_append.mp hc with hc1 | hc2
      · exact hall c hc1
      · exact hw c hc2
    unfold trimSp
    rw [h1, hs]
  · unfold trimSp
    rw [dropWhile_append_ne_nil _ _ hs, List.reverse_append,
        dropWhile_append_all _ _ (by intro c hc; exact hw c (List.mem_reverse.mp hc))]

theorem trimSp_accNL (lines : List Str) : trimSp (accNL lines) = trimSp (joinNL lines) := by
  cases h : lines with
  | nil => rfl
  | cons l rest =>
    rw [← h, accNL_eq_joinNL lines (by rw [h]; simp),
        trimSp_append_space _ _ (by intro c hc; simp at hc; rw [hc]; rfl)]

/-! Equation lemmas for the four branches of `parseStep`. -/

theorem parseStep_meta (st : ParseSt) (line : Str) (h : isMetaLine line = true) :
    parseStep st line = { st with meta := metaBodyOf line } := by
  unfold parseStep
  rw [h]
  simp

theorem parseStep_sep (st : ParseSt) (line : Str) (h : isMetaLine line = false)
    (h2 : line = "---".data) (h3 : st.inAnswer = false) :
    parseStep st line = { st with inAnswer := true } := by
  unfold parseStep
  rw [h]
  simp only [Bool.false_eq_true, if_false]
  rw [if_pos ⟨h2, h3⟩]

theorem parseStep_answer (st : ParseSt) (line : Str) (h : isMetaLine line = false)
    (h2 : st.inAnswer = true) :
    parseStep st line = { st with a := st.a ++ line ++ ['\n'] } := by
  unfold parseStep
  rw [h]
  simp only [Bool.false_eq_true, if_false]
  rw [if_neg (by rintro ⟨_, hcon⟩; rw [h2] at hcon; exact Bool.noConfusion hcon),
      if_pos h2]

theorem parseStep_question (st : ParseSt) (line : Str) (h : isMetaLine line = false)
    (h2 : st.inAnswer = false) (hne : line ≠ "---".data) :
    parseStep st line = { st with q := st.q ++ line ++ ['\n'] } := by
  unfold parseStep
  rw [h]
  simp only [Bool.false_eq_true, if_false]
  rw [if_neg (fun hcon => hne hcon.1), if_neg (by rw [h2]; exact Bool.noConfusion)]

theorem nonMetaLines_cons_meta (l : Str) (rest : List Str) (h : isMetaLine l = true) :
    nonMetaLines (l :: rest) = nonMetaLines rest := by
  unfold nonMetaLines
  rw [List.filter_cons_of_neg (by rw [h]; decide)]

theorem nonMetaLines_cons_nonmeta (l : Str) (rest : List Str) (h : isMetaLine l = false) :
    nonMetaLines (l :: rest) = l :: nonMetaLines rest := by
  unfold nonMetaLines
  rw [List.filter_cons_of_pos (by rw [h]; rfl)]

theorem parseStep_foldl_inAnswer (lines : List Str) :
    ∀ q0 a0 m0 : Str,
      (lines.foldl parseStep ⟨q0, a0, m0, true⟩).q = q0 ∧
      (lines.foldl parseStep ⟨q0, a0, m0, true⟩).a = a0 ++ accNL (nonMetaLines lines) ∧
      (lines.foldl parseStep ⟨q0, a0, m0, true⟩).inAnswer = true := by
  induction lines with
  | nil =>
    intro q0 a0 m0
    exact ⟨rfl, by rw [show nonMetaLines [] = [] from rfl, accNL_nil, List.append_nil]; rfl, rfl⟩
  | cons l rest ih =>
    intro q0 a0 m0
    simp only [List.foldl_cons]
    by_cases hm : isMetaLine l = true
    · rw [parseStep_meta _ _ hm, nonMetaLines_cons_meta _ _ hm]
      exact ih q0 a0 (metaBodyOf l)
    · rw [Bool.not_eq_true] at hm
      rw [parseStep_answer _ _ hm rfl, nonMetaLines_cons_nonmeta _ _ hm]
      obtain ⟨h1, h2, h3⟩ := ih q0 (a0 ++ l ++ ['\n']) m0
      refine ⟨h1, ?_, h3⟩
      rw [h2, accNL_cons]
      simp [List.append_assoc]

theorem parseStep_foldl_question (lines : List Str) :
    ∀ q0 a0 m0 : Str,
      (lines.foldl parseStep ⟨q0, a0, m0, false⟩).q =
        q0 ++ accNL ((nonMetaLines lines).takeWhile (fun l => l ≠ "---".data)) ∧
      (lines.foldl parseStep ⟨q0, a0, m0, false⟩).a =
        a0 ++ (if "---".data ∈ nonMetaLines lines then
          accNL (((nonMetaLines lines).dropWhile (fun l => l ≠ "---".data)).tail)
        else []) := by
  induction lines with
  | nil =>
    intro q0 a0 m0
    constructor
    · rw [show nonMetaLines [] = [] from rfl]
      rw [show (([] : List Str).takeWhile (fun l => l ≠ "---".data)) = [] from rfl,
          accNL_nil, List.append_nil]
      rfl
    · rw [show nonMetaLines [] = [] from rfl]
      rw [if_neg (by simp), List.append_nil]
      rfl
  | cons l rest ih =>
    intro q0 a0 m0
    simp only [List.foldl_cons]
    by_cases hm : isMetaLine l = true
    · rw [parseStep_meta _ _ hm, nonMetaLines_cons_meta _ _ hm]
      exact ih q0 a0 (metaBodyOf l)
    · rw [Bool.not_eq_true] at hm
      rw [nonMetaLines_cons_nonmeta _ _ hm]
      by_cases hsep : l = "---".data
      · rw [parseStep_sep _ _ hm hsep rfl]
        obtain ⟨h1, h2, _⟩ := parseStep_foldl_inAnswer rest q0 a0 m0
        subst hsep
        constructor
        · rw [h1, takeWhile_cons_neg _ _ (by simp), accNL_nil, List.append_nil]
        · rw [h2, if_pos (by simp), dropWhile_cons_neg _ _ (by simp), List.tail_cons]
      · rw [parseStep_question _ _ hm rfl hsep]
        obtain ⟨h1, h2⟩ := ih (q0 ++ l ++ ['\n']) a0 m0
        constructor
        · rw [h1, takeWhile_cons_pos _ _ (by simp [hsep]), accNL_cons]
          simp [List.append_assoc]
        · rw [h2, dropWhile_cons_pos _ _ (by simp [hsep])]
          have hmem : ("---".data ∈ l :: nonMetaLines rest) ↔
              ("---".data ∈ nonMetaLines rest) := by
            simp only [List.mem_cons]
            constructor
            · rintro (heq | hmemr)
              · exact absurd heq.symm hsep
              · exact hmemr
            · exact Or.inr
          by_cases hmemr : "---".data ∈ nonMetaLines rest
          · rw [if_pos hmemr, if_pos (hmem.mpr hmemr)]
          · rw [if_neg hmemr, if_neg (fun hc => hmemr (hmem.mp hc))]

/-- C6: `ParseCard` splits the non-metadata remainder at the first line that
is exactly `---`: the question is the trimmed text before it, the answer the
trimmed text after it (later `---` lines kept), and with no separator the
whole remainder is the question and the answer is empty. -/
theorem claim_C6_question_answer_split (now : GoTime) (lines : List Str) (filePath : Str) :
    (parseCardLines now lines filePath).question = specQuestion lines ∧
    (parseCardLines now lines filePath).answer = specAnswer lines := by
  obtain ⟨hq, ha⟩ := parseStep_foldl_question lines [] [] []
  constructor
  · show trimSp (lines.foldl parseStep ⟨[], [], [], false⟩).q = specQuestion lines
    rw [hq, List.nil_append]
    unfold specQuestion
    exact trimSp_accNL _
  · show trimSp (lines.foldl parseStep ⟨[], [], [], false⟩).a = specAnswer lines
    rw [ha, List.nil_append]
    unfold specAnswer
    by_cases hmem : "---".data ∈ nonMetaLines lines
    · rw [if_pos hmem, if_pos hmem]
      exact trimSp_accNL _
    · rw [if_neg hmem, if_neg hmem]
      rfl

/-! ### C7: permissive metadata decoding -/

theorem findMatches_scenario3 : findMatches
    "due:2024-01-15T10:30:00Z, stability:invalid, difficulty:6.25, reps:5".data =
    [("due".data, "2024-01-15T10:30:00Z".data), ("stability".data, "invalid".data),
     ("difficulty".data, "6.25".data), ("reps".data, "5".data)] := rfl

theorem applyMatch_scenario3_due (c : FSRSCard) :
    applyMatch c ("due".data, "2024-01-15T10:30:00Z".data) =
      { c with due := ⟨2024, 1, 15, 10, 30, 0, 0⟩ } := rfl

theorem applyMatch_scenario3_stability (c : FSRSCard) :
    applyMatch c ("stability".data, "invalid".data) = c := rfl

theorem applyMatch_scenario3_difficulty (c : FSRSCard) :
    applyMatch c ("difficulty".data, "6.25".data) = { c with difficulty := 25 / 4 } := by
  have h625 : goParseFloat (trimSp "6.25".data) = some ((25 : ℚ) / 4) := by
    rw [show trimSp "6.25".data = natToStr 6 ++ '.' :: pad2 25 from rfl,
        goParseFloat_unsigned 6 25 (by omega)]
    norm_num
  calc applyMatch c ("difficulty".data, "6.25".data)
      = (match goParseFloat (trimSp "6.25".data) with
         | some f => { c with difficulty := f }
         | none => c) := rfl
    _ = { c with difficulty := 25 / 4 } := by rw [h625]

theorem applyMatch_scenario3_reps (c : FSRSCard) :
    applyMatch c ("reps".data, "5".data) = { c with reps := 5 } := rfl

/-- C7: the metadata body `"due:2024-01-15T10:30:00Z, stability:invalid,
difficulty:6.25, reps:5"` decodes with `stability` left at the new-card
default (the unparseable value is skipped), `difficulty = 6.25`, `reps = 5`
and `due` the given timestamp; in general a recognized key whose value fails
to parse leaves the state unchanged, and such a pair never disturbs the
decoding of the other pairs. -/
theorem claim_C7_permissive_metadata :
    (∀ now : GoTime,
      parseFSRSMetadata now
        "due:2024-01-15T10:30:00Z, stability:invalid, difficulty:6.25, reps:5".data =
      { newCardDefault now with
          due := ⟨2024, 1, 15, 10, 30, 0, 0⟩
          difficulty := 25 / 4
          reps := 5 }) ∧
    (∀ (c : FSRSCard) (v : Str),
      (parseRFC3339 (trimSp v) = none → applyMatch c ("due".data, v) = c) ∧
      (goParseFloat (trimSp v) = none → applyMatch c ("stability".data, v) = c) ∧
      (goParseFloat (trimSp v) = none → applyMatch c ("difficulty".data, v) = c) ∧
      (goAtoi (trimSp v) = none → applyMatch c ("elapsed_days".data, v) = c) ∧
      (goAtoi (trimSp v) = none → applyMatch c ("scheduled_days".data, v) = c) ∧
      (goAtoi (trimSp v) = none → applyMatch c ("reps".data, v) = c) ∧
      (goAtoi (trimSp v) = none → applyMatch c ("lapses".data, v) = c)) ∧
    (∀ (now : GoTime) (m1 m2 : List (Str × Str)) (kv : Str × Str),
      (∀ c : FSRSCard, applyMatch c kv = c) →
      (m1 ++ kv :: m2).foldl applyMatch (newCardDefault now) =
        (m1 ++ m2).foldl applyMatch (newCardDefault now)) := by
  refine ⟨?_, ?_, ?_⟩
  · intro now
    unfold parseFSRSMetadata
    rw [findMatches_scenario3]
    simp only [List.foldl_cons, List.foldl_nil]
    rw [applyMatch_scenario3_due, applyMatch_scenario3_stability,
        applyMatch_scenario3_difficulty, applyMatch_scenario3_reps]
  · intro c v
    refine ⟨?_, ?_, ?_, ?_, ?_, ?_, ?_⟩
    · intro hv
      calc applyMatch c ("due".data, v)
          = (match parseRFC3339 (trimSp v) with
             | some t => { c with due := t }
             | none => c) := rfl
        _ = c := by rw [hv]
    · intro hv
      calc applyMatch c ("stability".data, v)
          = (match goParseFloat (trimSp v) with
             | some f => { c with stability := f }
             | none => c) := rfl
        _ = c := by rw [hv]
    · intro hv
      calc applyMatch c ("difficulty".data, v)
          = (match goParseFloat (trimSp v) with
             | some f => { c with difficulty := f }
             | none => c) := rfl
        _ = c := by rw [hv]
    · intro hv
      calc applyMatch c ("elapsed_days".data, v)
          = (match goAtoi (trimSp v) with
             | some i => { c with elapsedDays := intToUInt64 i }
             | none => c) := rfl
        _ = c := by rw [hv]
    · intro hv
      calc applyMatch c ("scheduled_days".data, v)
          = (match goAtoi (trimSp v) with
             | some i => { c with scheduledDays := intToUInt64 i }
             | none => c) := rfl
        _ = c := by rw [hv]
    · intro hv
      calc applyMatch c ("reps".data, v)
          = (match goAtoi (trimSp v) with
             | some i => { c with reps := intToUInt64 i }
             | none => c) := rfl
        _ = c := by rw [hv]
    · intro hv
      calc applyMatch c ("lapses".data, v)
          = (match goAtoi (trimSp v) with
             | some i => { c with lapses := intToUInt64 i }
             | none => c) := rfl
        _ = c := by rw [hv]
  · intro now m1 m2 kv hskip
    rw [List.foldl_append, List.foldl_append, List.foldl_cons, hskip]

theorem claim_C7_witness :
    parseFSRSMetadata t₀
      "due:2024-01-15T10:30:00Z, stability:invalid, difficulty:6.25, reps:5".data =
      { newCardDefault t₀ with
          due := ⟨2024, 1, 15, 10, 30, 0, 0⟩
          difficulty := 25 / 4
          reps := 5 } ∧
    applyMatch (newCardDefault t₀) ("stability".data, "invalid".data) = newCardDefault t₀ :=
  ⟨claim_C7_permissive_metadata.1 t₀,
   (claim_C7_permissive_metadata.2.1 (newCardDefault t₀) "invalid".data).2.1 rfl⟩

/-! ### C3: the codec round trip

Evaluation lemmas for the `(\\w+):([^,]+)` scan over the serialized
metadata body, leading to `findMatches (metaBody c)`. -/

theorem scanStep_scan (acc : List (Str × Str)) (ch : Char) :
    scanStep (acc, .scan) ch =
      if isWordChar ch = true then (acc, .key [ch]) else (acc, .scan) := rfl

theorem scanStep_key (acc : List (Str × Str)) (k : Str) (ch : Char) :
    scanStep (acc, .key k) ch =
      if isWordChar ch = true then (acc, .key (k ++ [ch]))
      else if ch = ':' then (acc, .val k []) else (acc, .scan) := rfl

theorem scanStep_val (acc : List (Str × Str)) (k v : Str) (ch : Char) :
    scanStep (acc, .val k v) ch =
      if ch = ',' then
        (if v.isEmpty then (acc, .scan) else (acc ++ [(k, v)], .scan))
      else (acc, .val k (v ++ [ch])) := rfl

theorem scan_key_run (key : Str) (h : ∀ ch ∈ key, isWordChar ch = true) :
    ∀ (acc : List (Str × Str)) (k0 : Str) (rest : Str),
      (key ++ rest).foldl scanStep (acc, .key k0) =
        rest.foldl scanStep (acc, .key (k0 ++ key)) := by
  induction key with
  | nil => intro acc k0 rest; simp
  | cons ch tl ih =>
    intro acc k0 rest
    simp only [List.cons_append, List.foldl_cons]
    rw [scanStep_key, if_pos (h ch (by simp))]
    rw [ih (fun x hx => h x (by simp [hx])) acc (k0 ++ [ch]) rest]
    simp

theorem scan_val_run (v : Str) (h : ∀ ch ∈ v, ch ≠ ',') :
    ∀ (acc : List (Str × Str)) (k v0 : Str) (rest : Str),
      (v ++ rest).foldl scanStep (acc, .val k v0) =
        rest.foldl scanStep (acc, .val k (v0 ++ v)) := by
  induction v with
  | nil => intro acc k v0 rest; simp
  | cons ch tl ih =>
    intro acc k v0 rest
    simp only [List.cons_append, List.foldl_cons]
    rw [scanStep_val, if_neg (h ch (by simp))]
    rw [ih (fun x hx => h x (by simp [hx])) acc k (v0 ++ [ch]) rest]
    simp

theorem scan_segment (key v : Str)
    (hk1 : key ≠ []) (hk2 : ∀ ch ∈ key, isWordChar ch = true)
    (hv1 : v ≠ []) (hv2 : ∀ ch ∈ v, ch ≠ ',') (acc : List (Str × Str)) (rest : Str) :
    (key ++ (':' :: (v ++ (',' :: rest)))).foldl scanStep (acc, .scan) =
      rest.foldl scanStep (acc ++ [(key, v)], .scan) := by
  rcases key with _ | ⟨kc, ktl⟩
  · exact absurd rfl hk1
  · simp only [List.cons_append, List.append_assoc, List.foldl_cons]
    rw [scanStep_scan, if_pos (hk2 kc (by simp))]
    rw [scan_key_run ktl (fun x hx => hk2 x (by simp [hx])) acc [kc] _]
    simp only [List.foldl_cons]
    rw [scanStep_key, if_neg (by decide), if_pos rfl]
    rw [scan_val_run v hv2 acc _ [] _]
    simp only [List.foldl_cons, List.nil_append]
    rw [scanStep_val, if_pos rfl]
    rw [show v.isEmpty = false from by
      rcases v with _ | ⟨vc, vtl⟩
      · exact absurd rfl hv1
      · rfl]
    simp

theorem scan_segment_last (key v : Str)
    (hk1 : key ≠ []) (hk2 : ∀ ch ∈ key, isWordChar ch = true)
    (hv2 : ∀ ch ∈ v, ch ≠ ',') (acc : List (Str × Str)) :
    (key ++ (':' :: v)).foldl scanStep (acc, .scan) = (acc, .val key v) := by
  rcases key with _ | ⟨kc, ktl⟩
  · exact absurd rfl hk1
  · simp only [List.cons_append, List.append_assoc, List.foldl_cons]
    rw [scanStep_scan, if_pos (hk2 kc (by simp))]
    rw [scan_key_run ktl (fun x hx => hk2 x (by simp [hx])) acc [kc] _]
    simp only [List.foldl_cons]
    rw [scanStep_key, if_neg (by decide), if_pos rfl]
    rw [show (v : Str) = v ++ [] from by simp]
    rw [scan_val_run v hv2 acc _ [] _]
    simp

theorem scan_space (acc : List (Str × Str)) (rest : Str) :
    (' ' :: rest).foldl scanStep (acc, .scan) = rest.foldl scanStep (acc, .scan) := by
  simp only [List.foldl_cons]
  rw [scanStep_scan, if_neg (by decide)]

/-! Character classes of the serialized values. -/

theorem isDigit_classes (c : Char) (h : c.isDigit = true) :
    c ≠ ',' ∧ isSpaceChar c = false ∧ isWordChar c = true := by
  refine ⟨?_, ?_, ?_⟩
  · intro hcon
    rw [hcon] at h
    exact absurd h (by decide)
  · by_contra hcon
    rw [Bool.not_eq_false] at hcon
    unfold isSpaceChar at hcon
    rcases Bool.or_eq_true_iff.mp hcon with h1 | h4
    · rcases Bool.or_eq_true_iff.mp h1 with h2 | h3
      · rcases Bool.or_eq_true_iff.mp h2 with h5 | h6
        · rw [beq_iff_eq.mp h5] at h; exact absurd h (by decide)
        · rw [beq_iff_eq.mp h6] at h; exact absurd h (by decide)
      · rw [beq_iff_eq.mp h3] at h; exact absurd h (by decide)
    · rw [beq_iff_eq.mp h4] at h; exact absurd h (by decide)
  · unfold isWordChar
    rw [Char.isAlphanum, h]
    simp

theorem natToStr_classes (n : Nat) :
    ∀ c ∈ natToStr n, c ≠ ',' ∧ isSpaceChar c = false :=
  fun c hc => ⟨(isDigit_classes c (natToStr_digits n c hc)).1,
    (isDigit_classes c (natToStr_digits n c hc)).2.1⟩

theorem pad2_classes (n : Nat) :
    ∀ c ∈ pad2 n, c ≠ ',' ∧ isSpaceChar c = false ∧ c ≠ '.' :=
  fun c hc => by
    have hd : c.isDigit = true := pad2_digits n c hc
    refine ⟨(isDigit_classes c hd).1, (isDigit_classes c hd).2.1, ?_⟩
    intro hcon
    rw [hcon] at hd
    exact absurd hd (by decide)

theorem pad4_digits (n : Nat) : ∀ c ∈ pad4 n, c.isDigit = true := by
  intro c hc
  unfold pad4 at hc
  simp only [List.mem_cons, List.not_mem_nil, or_false] at hc
  rcases hc with rfl | rfl | rfl | rfl <;>
    exact (digitChar_spec _ (Nat.mod_lt _ (by omega))).1

theorem fmtRFC3339_classes (t : GoTime) :
    ∀ c ∈ fmtRFC3339 t, c ≠ ',' ∧ isSpaceChar c = false := by
  intro c hc
  unfold fmtRFC3339 at hc
  simp only [List.mem_append, List.mem_cons, List.mem_singleton] at hc
  rcases hc with ((((((h | h) | h) | h) | h) | h) | h)
  · exact ⟨(isDigit_classes c (pad4_digits _ c h)).1,
      (isDigit_classes c (pad4_digits _ c h)).2.1⟩
  · rcases h with rfl | h
    · exact ⟨by decide, by decide⟩
    · exact ⟨(isDigit_classes c (pad2_digits _ c h)).1,
        (isDigit_classes c (pad2_digits _ c h)).2.1⟩
  · rcases h with rfl | h
    · exact ⟨by decide, by decide⟩
    · exact ⟨(isDigit_classes c (pad2_digits _ c h)).1,
        (isDigit_classes c (pad2_digits _ c h)).2.1⟩
  · rcases h with rfl | h
    · exact ⟨by decide, by decide⟩
    · exact ⟨(isDigit_classes c (pad2_digits _ c h)).1,
        (isDigit_classes c (pad2_digits _ c h)).2.1⟩
  · rcases h with rfl | h
    · exact ⟨by decide, by decide⟩
    · exact ⟨(isDigit_classes c (pad2_digits _ c h)).1,
        (isDigit_classes c (pad2_digits _ c h)).2.1⟩
  · rcases h with rfl | h
    · exact ⟨by decide, by decide⟩
    · exact ⟨(isDigit_classes c (pad2_digits _ c h)).1,
        (isDigit_classes c (pad2_digits _ c h)).2.1⟩
  · rcases h with rfl | hmem
    · exact ⟨by decide, by decide⟩
    · simp at hmem

theorem fmtF2_classes (q : ℚ) :
    ∀ c ∈ fmtF2 q, c ≠ ',' ∧ isSpaceChar c = false := by
  intro c hc
  unfold fmtF2 at hc
  simp only [List.mem_append, List.mem_cons] at hc
  rcases hc with (h | h) | (rfl | h)
  · by_cases hz : round (q * 100) < 0
    · rw [if_pos hz] at h
      simp only [List.mem_singleton] at h
      rw [h]
      exact ⟨by decide, by decide⟩
    · rw [if_neg hz] at h
      simp at h
  · exact natToStr_classes _ c h
  · exact ⟨by decide, by decide⟩
  · exact ⟨(pad2_classes _ c h).1, (pad2_classes _ c h).2.1⟩

theorem stateToString_classes (st : CState) :
    ∀ c ∈ stateToString st, c ≠ ',' ∧ isSpaceChar c = false := by
  cases st <;> · intro c hc; unfold stateToString at hc; revert c; decide

theorem fmtRFC3339_ne_nil (t : GoTime) : fmtRFC3339 t ≠ [] :=
  List.cons_ne_nil _ _

theorem natToStr_append_ne_nil (n : Nat) (x : Str) : natToStr n ++ x ≠ [] := by
  intro hcon
  rcases List.append_eq_nil.mp hcon with ⟨h1, _⟩
  exact natToStr_ne_nil n h1

theorem fmtF2_ne_nil (q : ℚ) : fmtF2 q ≠ [] := by
  show (if round (q * 100) < 0 then ['-'] else []) ++
      natToStr ((round (q * 100)).natAbs / 100) ++
      '.' :: pad2 ((round (q * 100)).natAbs % 100) ≠ []
  by_cases hz : round (q * 100) < 0
  · rw [if_pos hz]
    simp
  · rw [if_neg hz, List.nil_append]
    exact natToStr_append_ne_nil _ _

theorem stateToString_ne_nil (st : CState) : stateToString st ≠ [] := by
  cases st <;> simp [stateToString]

theorem metaBody_shape (c : FSRSCard) :
    metaBody c =
      "due".data ++ (':' :: (fmtRFC3339 c.due ++ (',' :: (' ' ::
      ("stability".data ++ (':' :: (fmtF2 c.stability ++ (',' :: (' ' ::
      ("difficulty".data ++ (':' :: (fmtF2 c.difficulty ++ (',' :: (' ' ::
      ("elapsed_days".data ++ (':' :: (natToStr c.elapsedDays ++ (',' :: (' ' ::
      ("scheduled_days".data ++ (':' :: (natToStr c.scheduledDays ++ (',' :: (' ' ::
      ("reps".data ++ (':' :: (natToStr c.reps ++ (',' :: (' ' ::
      ("lapses".data ++ (':' :: (natToStr c.lapses ++ (',' :: (' ' ::
      ("state".data ++ (':' :: stateToString c.state)))))))))))))))))))))))))))))))))))) := by
  unfold metaBody
  simp only [List.append_assoc]
  rfl

theorem stateToString_isEmpty (st : CState) : (stateToString st).isEmpty = false := by
  cases st <;> rfl

theorem findMatches_metaBody (c : FSRSCard) :
    findMatches (metaBody c) =
      [("due".data, fmtRFC3339 c.due),
       ("stability".data, fmtF2 c.stability),
       ("difficulty".data, fmtF2 c.difficulty),
       ("elapsed_days".data, natToStr c.elapsedDays),
       ("scheduled_days".data, natToStr c.scheduledDays),
       ("reps".data, natToStr c.reps),
       ("lapses".data, natToStr c.lapses),
       ("state".data, stateToString c.state)] := by
  unfold findMatches
  rw [metaBody_shape]
  rw [scan_segment "due".data (fmtRFC3339 c.due) (by decide) (by decide)
      (fmtRFC3339_ne_nil _) (fun ch hch => (fmtRFC3339_classes _ ch hch).1) [] _]
  rw [scan_space]
  rw [scan_segment "stability".data (fmtF2 c.stability) (by decide) (by decide)
      (fmtF2_ne_nil _) (fun ch hch => (fmtF2_classes _ ch hch).1) _ _]
  rw [scan_space]
  rw [scan_segment "difficulty".data (fmtF2 c.difficulty) (by decide) (by decide)
      (fmtF2_ne_nil _) (fun ch hch => (fmtF2_classes _ ch hch).1) _ _]
  rw [scan_space]
  rw [scan_segment "elapsed_days".data (natToStr c.elapsedDays) (by decide) (by decide)
      (natToStr_ne_nil _) (fun ch hch => (natToStr_classes _ ch hch).1) _ _]
  rw [scan_space]
  rw [scan_segment "scheduled_days".data (natToStr c.scheduledDays) (by decide) (by decide)
      (natToStr_ne_nil _) (fun ch hch => (natToStr_classes _ ch hch).1) _ _]
  rw [scan_space]
  rw [scan_segment "reps".data (natToStr c.reps) (by decide) (by decide)
      (natToStr_ne_nil _) (fun ch hch => (natToStr_classes _ ch hch).1) _ _]
  rw [scan_space]
  rw [scan_segment "lapses".data (natToStr c.lapses) (by decide) (by decide)
      (natToStr_ne_nil _) (fun ch hch => (natToStr_classes _ ch hch).1) _ _]
  rw [scan_space]
  rw [scan_segment_last "state".data (stateToString c.state) (by decide) (by decide)
      (fun ch hch => (stateToString_classes _ ch hch).1) _]
  show (if (stateToString c.state).isEmpty = true then _ else
      _ ++ [("state".data, stateToString c.state)]) = _
  rw [stateToString_isEmpty]
  simp

theorem dropWhile_eq_self_of_all {α : Type} {p : α → Bool} (l : List α)
    (h : ∀ a ∈ l, p a = false) : l.dropWhile p = l := by
  cases l with
  | nil => rfl
  | cons a r => exact dropWhile_cons_neg _ _ (h a (by simp))

theorem trimSp_all_nonspace (s : Str) (h : ∀ c ∈ s, isSpaceChar c = false) :
    trimSp s = s := by
  unfold trimSp
  rw [dropWhile_eq_self_of_all s h,
      dropWhile_eq_self_of_all s.reverse (fun c hc => h c (List.mem_reverse.mp hc)),
      List.reverse_reverse]

theorem intToUInt64_ofNat (n : Nat) (h : n < 2 ^ 64) : intToUInt64 (n : Int) = n := by
  unfold intToUInt64
  omega

theorem applyMatch_due_fmt (c : FSRSCard) (t : GoTime) (h : ValidTime t) :
    applyMatch c ("due".data, fmtRFC3339 t) = { c with due := truncSec t } := by
  calc applyMatch c ("due".data, fmtRFC3339 t)
      = (match parseRFC3339 (trimSp (fmtRFC3339 t)) with
         | some u => { c with due := u }
         | none => c) := rfl
    _ = { c with due := truncSec t } := by
      rw [trimSp_all_nonspace _ (fun ch hch => (fmtRFC3339_classes t ch hch).2),
          parseRFC3339_fmt t h]

theorem applyMatch_stability_fmt (c : FSRSCard) (q : ℚ) :
    applyMatch c ("stability".data, fmtF2 q) = { c with stability := round2 q } := by
  calc applyMatch c ("stability".data, fmtF2 q)
      = (match goParseFloat (trimSp (fmtF2 q)) with
         | some f => { c with stability := f }
         | none => c) := rfl
    _ = { c with stability := round2 q } := by
      rw [trimSp_all_nonspace _ (fun ch hch => (fmtF2_classes q ch hch).2),
          goParseFloat_fmtF2]

theorem applyMatch_difficulty_fmt (c : FSRSCard) (q : ℚ) :
    applyMatch c ("difficulty".data, fmtF2 q) = { c with difficulty := round2 q } := by
  calc applyMatch c ("difficulty".data, fmtF2 q)
      = (match goParseFloat (trimSp (fmtF2 q)) with
         | some f => { c with difficulty := f }
         | none => c) := rfl
    _ = { c with difficulty := round2 q } := by
      rw [trimSp_all_nonspace _ (fun ch hch => (fmtF2_classes q ch hch).2),
          goParseFloat_fmtF2]

theorem atoi_trim_natToStr (n : Nat) (h : n ≤ 2 ^ 63 - 1) :
    goAtoi (trimSp (natToStr n)) = some (n : Int) := by
  rw [trimSp_all_nonspace _ (fun ch hch => (natToStr_classes n ch hch).2),
      goAtoi_natToStr n h]

theorem applyMatch_elapsed_fmt (c : FSRSCard) (n : Nat) (h : n ≤ 2 ^ 63 - 1) :
    applyMatch c ("elapsed_days".data, natToStr n) = { c with elapsedDays := n } := by
  calc applyMatch c ("elapsed_days".data, natToStr n)
      = (match goAtoi (trimSp (natToStr n)) with
         | some i => { c with elapsedDays := intToUInt64 i }
         | none => c) := rfl
    _ = { c with elapsedDays := n } := by
      rw [atoi_trim_natToStr n h]
      show { c with elapsedDays := intToUInt64 ((n : Nat) : Int) } = { c with elapsedDays := n }
      rw [intToUInt64_ofNat n (by omega)]

theorem applyMatch_scheduled_fmt (c : FSRSCard) (n : Nat) (h : n ≤ 2 ^ 63 - 1) :
    applyMatch c ("scheduled_days".data, natToStr n) = { c with scheduledDays := n } := by
  calc applyMatch c ("scheduled_days".data, natToStr n)
      = (match goAtoi (trimSp (natToStr n)) with
         | some i => { c with scheduledDays := intToUInt64 i }
         | none => c) := rfl
    _ = { c with scheduledDays := n } := by
      rw [atoi_trim_natToStr n h]
      show { c with scheduledDays := intToUInt64 ((n : Nat) : Int) } = { c with scheduledDays := n }
      rw [intToUInt64_ofNat n (by omega)]

theorem applyMatch_reps_fmt (c : FSRSCard) (n : Nat) (h : n ≤ 2 ^ 63 - 1) :
    applyMatch c ("reps".data, natToStr n) = { c with reps := n } := by
  calc applyMatch c ("reps".data, natToStr n)
      = (match goAtoi (trimSp (natToStr n)) with
         | some i => { c with reps := intToUInt64 i }
         | none => c) := rfl
    _ = { c with reps := n } := by
      rw [atoi_trim_natToStr n h]
      show { c with reps := intToUInt64 ((n : Nat) : Int) } = { c with reps := n }
      rw [intToUInt64_ofNat n (by omega)]

theorem applyMatch_lapses_fmt (c : FSRSCard) (n : Nat) (h : n ≤ 2 ^ 63 - 1) :
    applyMatch c ("lapses".data, natToStr n) = { c with lapses := n } := by
  calc applyMatch c ("lapses".data, natToStr n)
      = (match goAtoi (trimSp (natToStr n)) with
         | some i => { c with lapses := intToUInt64 i }
         | none => c) := rfl
    _ = { c with lapses := n } := by
      rw [atoi_trim_natToStr n h]
      show { c with lapses := intToUInt64 ((n : Nat) : Int) } = { c with lapses := n }
      rw [intToUInt64_ofNat n (by omega)]

theorem applyMatch_state_fmt (c : FSRSCard) (st : CState) :
    applyMatch c ("state".data, stateToString st) = { c with state := st } := by
  calc applyMatch c ("state".data, stateToString st)
      = { c with state := stringToState (trimSp (stateToString st)) } := rfl
    _ = { c with state := st } := by
      rw [trimSp_all_nonspace _ (fun ch hch => (stateToString_classes st ch hch).2),
          show stringToState (stateToString st) = st from by cases st <;> rfl]

theorem parseFSRSMetadata_metaBody (now : GoTime) (s : FSRSCard) (h : ValidSched s) :
    parseFSRSMetadata now (metaBody s) = roundTripped s := by
  obtain ⟨hdue, he, hsc, hr, hl⟩ := h
  unfold parseFSRSMetadata
  rw [findMatches_metaBody]
  simp only [List.foldl_cons, List.foldl_nil]
  rw [applyMatch_due_fmt _ _ hdue, applyMatch_stability_fmt, applyMatch_difficulty_fmt,
      applyMatch_elapsed_fmt _ _ he, applyMatch_scheduled_fmt _ _ hsc,
      applyMatch_reps_fmt _ _ hr, applyMatch_lapses_fmt _ _ hl, applyMatch_state_fmt]
  rfl

/-! Structure of the serialized line and the updated content. -/

theorem fsrsLine_shape1 (s : FSRSCard) :
    fsrsLine s = "<!-- FSRS:".data ++ ((' ' :: metaBody s) ++ " -->".data) := by
  unfold fsrsLine
  simp only [List.append_assoc]
  rfl

theorem fsrsLine_shape2 (s : FSRSCard) :
    fsrsLine s = ("<!-- FSRS: ".data ++ (metaBody s ++ [' '])) ++ "-->".data := by
  unfold fsrsLine
  simp only [List.append_assoc]
  rfl

theorem isMetaLine_fsrsLine (s : FSRSCard) : isMetaLine (fsrsLine s) = true := by
  unfold isMetaLine
  rw [Bool.and_eq_true]
  constructor
  · rw [fsrsLine_shape1]
    exact hasPre_append _ _
  · rw [fsrsLine_shape2]
    exact hasSuf_append _ _

theorem trimSp_cons_space (x : Str) : trimSp (' ' :: x) = trimSp x := by
  unfold trimSp
  rw [dropWhile_cons_pos ' ' x (by decide)]

theorem metaBody_head_shape (s : FSRSCard) :
    metaBody s = 'd' :: ("ue:".data ++ (fmtRFC3339 s.due ++
      (", stability:".data ++ (fmtF2 s.stability ++
      (", difficulty:".data ++ (fmtF2 s.difficulty ++
      (", elapsed_days:".data ++ (natToStr s.elapsedDays ++
      (", scheduled_days:".data ++ (natToStr s.scheduledDays ++
      (", reps:".data ++ (natToStr s.reps ++
      (", lapses:".data ++ (natToStr s.lapses ++
      (", state:".data ++ stateToString s.state))))))))))))))) := by
  unfold metaBody
  simp only [List.append_assoc]
  rfl

theorem trimSp_metaBody (s : FSRSCard) : trimSp (metaBody s) = metaBody s := by
  unfold trimSp
  have h1 : (metaBody s).dropWhile isSpaceChar = metaBody s := by
    rw [metaBody_head_shape]
    exact dropWhile_cons_neg _ _ (by decide)
  rw [h1]
  have h2 : (metaBody s).reverse.dropWhile isSpaceChar = (metaBody s).reverse := by
    have hsplit : metaBody s =
        ("due:".data ++ fmtRFC3339 s.due ++ ", stability:".data ++ fmtF2 s.stability ++
         ", difficulty:".data ++ fmtF2 s.difficulty ++ ", elapsed_days:".data ++
         natToStr s.elapsedDays ++ ", scheduled_days:".data ++ natToStr s.scheduledDays ++
         ", reps:".data ++ natToStr s.reps ++ ", lapses:".data ++ natToStr s.lapses ++
         ", state:".data) ++ stateToString s.state := by
      unfold metaBody
      simp only [List.append_assoc]
    rw [hsplit, List.reverse_append]
    rcases s.state with _ | _ | _ | _ <;>
      exact dropWhile_cons_neg _ _ (by decide)
  rw [h2, List.reverse_reverse]

theorem metaBodyOf_fsrsLine (s : FSRSCard) : metaBodyOf (fsrsLine s) = metaBody s := by
  unfold metaBodyOf
  rw [fsrsLine_shape2, dropSuf_append]
  rw [show ("<!-- FSRS: ".data : Str) = "<!-- FSRS:".data ++ [' '] from by decide,
      List.append_assoc, List.singleton_append]
  rw [dropPre_append, trimSp_cons_space, trimSp_append_space _ [' '] (by decide),
      trimSp_metaBody]

theorem filter_hasPre_eq_nonMeta (content : List Str) (h : MetaLinesClosed content) :
    content.filter (fun line => !hasPre line "<!-- FSRS:".data) = nonMetaLines content := by
  unfold nonMetaLines
  apply List.filter_congr
  intro l hl
  unfold isMetaLine
  by_cases hp : hasPre l "<!-- FSRS:".data = true
  · rw [hp, h l hl hp]
    rfl
  · rw [Bool.not_eq_true] at hp
    rw [hp]
    rfl

theorem filtered_no_meta (content : List Str) :
    ∀ l ∈ content.filter (fun line => !hasPre line "<!-- FSRS:".data),
      isMetaLine l = false := by
  intro l hl
  rw [List.mem_filter] at hl
  unfold isMetaLine
  rw [Bool.not_eq_true'] at hl
  rw [hl.2]
  rfl

theorem nonMetaLines_of_no_meta (lines : List Str) (h : ∀ l ∈ lines, isMetaLine l = false) :
    nonMetaLines lines = lines := by
  unfold nonMetaLines
  apply List.filter_eq_self.mpr
  intro l hl
  rw [h l hl]
  rfl

theorem parseStep_meta_of_nonmeta (st : ParseSt) (line : Str) (h : isMetaLine line = false) :
    (parseStep st line).meta = st.meta := by
  unfold parseStep
  rw [h]
  simp only [Bool.false_eq_true, if_false]
  split
  · rfl
  · split <;> rfl

theorem parseStep_foldl_meta (lines : List Str) (h : ∀ l ∈ lines, isMetaLine l = false) :
    ∀ st : ParseSt, (lines.foldl parseStep st).meta = st.meta := by
  induction lines with
  | nil => intro st; rfl
  | cons l rest ih =>
    intro st
    simp only [List.foldl_cons]
    rw [ih (fun x hx => h x (by simp [hx])) (parseStep st l),
        parseStep_meta_of_nonmeta st l (h l (by simp))]

theorem metaBody_isEmpty (s : FSRSCard) : (metaBody s).isEmpty = false := by
  rw [metaBody_head_shape]
  rfl

/-- C3 (amended): for every card with a valid scheduling state parsed from a
file none of whose lines starts with `<!-- FSRS:` without also ending with
`-->`, serializing via `UpdateFSRSMetadata` and reparsing via `ParseCard`
reproduces the question, the answer, and the scheduling fields — stability
and difficulty to two decimal places and the due timestamp to whole
seconds. -/
theorem claim_C3_roundtrip_amended (now now' : GoTime) (content : List Str)
    (filePath : Str) (s : FSRSCard)
    (hclosed : MetaLinesClosed content) (hvalid : ValidSched s) :
    (parseCardLines now' (updateFSRSMetadataLines
        { parseCardLines now content filePath with fsrs := s } content)
      filePath).question = (parseCardLines now content filePath).question ∧
    (parseCardLines now' (updateFSRSMetadataLines
        { parseCardLines now content filePath with fsrs := s } content)
      filePath).answer = (parseCardLines now content filePath).answer ∧
    (parseCardLines now' (updateFSRSMetadataLines
        { parseCardLines now content filePath with fsrs := s } content)
      filePath).fsrs = roundTripped s := by
  have hnom : ∀ l ∈ content.filter (fun line => !hasPre line "<!-- FSRS:".data),
      isMetaLine l = false := filtered_no_meta content
  have hnmF : nonMetaLines (content.filter (fun line => !hasPre line "<!-- FSRS:".data)) =
      content.filter (fun line => !hasPre line "<!-- FSRS:".data) :=
    nonMetaLines_of_no_meta _ hnom
  have hFnm : content.filter (fun line => !hasPre line "<!-- FSRS:".data) =
      nonMetaLines content := filter_hasPre_eq_nonMeta content hclosed
  have hfold1 : (updateFSRSMetadataLines
        { parseCardLines now content filePath with fsrs := s } content).foldl
        parseStep ⟨[], [], [], false⟩ =
      (content.filter (fun line => !hasPre line "<!-- FSRS:".data)).foldl
        parseStep ⟨[], [], metaBody s, false⟩ := by
    show (fsrsLine s :: content.filter (fun line => !hasPre line "<!-- FSRS:".data)).foldl
        parseStep ⟨[], [], [], false⟩ = _
    simp only [List.foldl_cons]
    rw [parseStep_meta _ _ (isMetaLine_fsrsLine s), metaBodyOf_fsrsLine]
  refine ⟨?_, ?_, ?_⟩
  · show trimSp ((updateFSRSMetadataLines _ content).foldl parseStep ⟨[], [], [], false⟩).q =
      trimSp ((content.foldl parseStep ⟨[], [], [], false⟩)).q
    rw [hfold1,
        (parseStep_foldl_question _ [] [] (metaBody s)).1,
        (parseStep_foldl_question content [] [] []).1,
        hnmF, hFnm]
  · show trimSp ((updateFSRSMetadataLines _ content).foldl parseStep ⟨[], [], [], false⟩).a =
      trimSp ((content.foldl parseStep ⟨[], [], [], false⟩)).a
    rw [hfold1,
        (parseStep_foldl_question _ [] [] (metaBody s)).2,
        (parseStep_foldl_question content [] [] []).2,
        hnmF, hFnm]
  · have hmeta : ((updateFSRSMetadataLines
        { parseCardLines now content filePath with fsrs := s } content).foldl
        parseStep ⟨[], [], [], false⟩).meta = metaBody s := by
      rw [hfold1]
      exact parseStep_foldl_meta _ hnom ⟨[], [], metaBody s, false⟩
    show (if ((updateFSRSMetadataLines _ content).foldl parseStep
          ⟨[], [], [], false⟩).meta.isEmpty then newCardDefault now'
        else parseFSRSMetadata now' ((updateFSRSMetadataLines _ content).foldl parseStep
          ⟨[], [], [], false⟩).meta) = roundTripped s
    rw [hmeta, metaBody_isEmpty]
    simp only [Bool.false_eq_true, if_false]
    exact parseFSRSMetadata_metaBody now' s hvalid

/-- C3 counterexample: the claim fails as stated over every file content.
With the content `["<!-- FSRS: x", "Q"]` — whose first line has the metadata
prefix but not the suffix — and a valid scheduling state, `ParseCard` keeps
that line in the question, `UpdateFSRSMetadata` strips it (prefix-only
filter), and the reparse yields a different question. -/
theorem claim_C3_counterexample :
    ValidSched (newCardDefault t₀) ∧
    ¬ ((parseCardLines t₀ (updateFSRSMetadataLines
          { parseCardLines t₀ ["<!-- FSRS: x".data, "Q".data] "a.md".data with
              fsrs := newCardDefault t₀ }
          ["<!-- FSRS: x".data, "Q".data]) "a.md".data).question =
        (parseCardLines t₀ ["<!-- FSRS: x".data, "Q".data] "a.md".data).question) := by
  constructor
  · refine ⟨⟨?_, ?_, ?_, ?_, ?_, ?_, ?_, ?_⟩, ?_, ?_, ?_, ?_⟩ <;> decide
  · intro hcon
    have horig : (parseCardLines t₀ ["<!-- FSRS: x".data, "Q".data] "a.md".data).question =
        "<!-- FSRS: x".data ++ '\n' :: "Q".data := by decide
    have hre : (parseCardLines t₀ (updateFSRSMetadataLines
          { parseCardLines t₀ ["<!-- FSRS: x".data, "Q".data] "a.md".data with
              fsrs := newCardDefault t₀ }
          ["<!-- FSRS: x".data, "Q".data]) "a.md".data).question = "Q".data := by
      show trimSp ((updateFSRSMetadataLines
          { parseCardLines t₀ ["<!-- FSRS: x".data, "Q".data] "a.md".data with
              fsrs := newCardDefault t₀ }
          ["<!-- FSRS: x".data, "Q".data]).foldl parseStep ⟨[], [], [], false⟩).q = "Q".data
      rw [show updateFSRSMetadataLines
            { parseCardLines t₀ ["<!-- FSRS: x".data, "Q".data] "a.md".data with
                fsrs := newCardDefault t₀ }
            ["<!-- FSRS: x".data, "Q".data] =
          fsrsLine (newCardDefault t₀) :: ["Q".data] from by
        show fsrsLine _ :: _ = _
        rw [show (["<!-- FSRS: x".data, "Q".data] : List Str).filter
              (fun line => !hasPre line "<!-- FSRS:".data) = ["Q".data] from by decide]]
      simp only [List.foldl_cons, List.foldl_nil]
      rw [parseStep_meta _ _ (isMetaLine_fsrsLine _)]
      rw [parseStep_question _ _ (by decide) rfl (by decide)]
      decide
    rw [horig] at hcon
    rw [hre] at hcon
    exact absurd hcon (by decide)

theorem claim_C3_witness :
    (parseCardLines t₁ (updateFSRSMetadataLines
        { parseCardLines t₀ ["Q".data, "---".data, "A".data] "a.md".data with
            fsrs := newCardDefault t₀ }
        ["Q".data, "---".data, "A".data])
      "a.md".data).question =
      (parseCardLines t₀ ["Q".data, "---".data, "A".data] "a.md".data).question ∧
    (parseCardLines t₁ (updateFSRSMetadataLines
        { parseCardLines t₀ ["Q".data, "---".data, "A".data] "a.md".data with
            fsrs := newCardDefault t₀ }
        ["Q".data, "---".data, "A".data])
      "a.md".data).answer =
      (parseCardLines t₀ ["Q".data, "---".data, "A".data] "a.md".data).answer ∧
    (parseCardLines t₁ (updateFSRSMetadataLines
        { parseCardLines t₀ ["Q".data, "---".data, "A".data] "a.md".data with
            fsrs := newCardDefault t₀ }
        ["Q".data, "---".data, "A".data])
      "a.md".data).fsrs = roundTripped (newCardDefault t₀) :=
  claim_C3_roundtrip_amended t₀ t₁ ["Q".data, "---".data, "A".data] "a.md".data
    (newCardDefault t₀) (by decide)
    ⟨⟨by decide, by decide, by decide, by decide, by decide, by decide, by decide, by decide⟩,
     by decide, by decide, by decide, by decide⟩

end Srs

